import Mathlib

/-!
A verification development for the smoldtb flattened-device-tree (FDT) library
(`src/smoldtb.c`).  The C code is shallowly embedded: memory regions are byte
lists (`List Nat`, each entry a byte), the parser's global `struct dtb_state`
is the record `dtb_state`, node and property records live in arenas modelled
as lists indexed by allocation order, and pointers are `Option Nat` arena
indices or byte offsets.  The host is taken to be little-endian, so `be32`
performs the four-byte swap exactly as the C does; a 32-bit load from byte
memory is the little-endian `loadLE32`.  All functions are fuel-bounded
structural recursions; fuel exhaustion models the C's non-termination and all
theorems about parsing hold for every fuel value.
-/

/-- Reads one byte of a modelled memory region; out-of-range reads yield 0 and
values are reduced mod 256 so that every list entry acts as a byte. -/
def byteAt (m : List Nat) (i : Nat) : Nat := m.getD i 0 % 256

/-- Little-endian 32-bit load from byte memory (the host load `state.cells[i]`
performed by the C on a little-endian machine). -/
def loadLE32 (m : List Nat) (off : Nat) : Nat :=
  byteAt m off + byteAt m (off + 1) * 256 + byteAt m (off + 2) * 65536 +
    byteAt m (off + 3) * 16777216

/-- `be32` from smoldtb.c (little-endian host branch): the four-byte swap. -/
def be32 (input : Nat) : Nat :=
  ((input &&& 0xFF) <<< 24) ||| ((input &&& 0xFF00) <<< 8) |||
    ((input &&& 0xFF0000) >>> 8) ||| ((input &&& 0xFF000000) >>> 24)

/-- The big-endian value of the 32-bit cell at cell index `i`:
`be32(state.cells[i])` in the C. -/
def cellBE (m : List Nat) (i : Nat) : Nat := be32 (loadLE32 m (4 * i))

/-- The four bytes that a host 32-bit store of `be32 x` writes, i.e. `x`
serialized big-endian. -/
def u32be (x : Nat) : List Nat :=
  [x / 16777216 % 256, x / 65536 % 256, x / 256 % 256, x % 256]

/-- `dtb_align_up` from smoldtb.c. -/
def dtb_align_up (input alignment : Nat) : Nat :=
  ((input + alignment - 1) / alignment) * alignment

/-- Helper for `string_len`: counts non-zero bytes from `off` until the first
zero byte.  The first argument is a structural bound that is always sufficient
because reads past the end of the region return 0. -/
def cstrLenAux (m : List Nat) : Nat → Nat → Nat
  | 0, _ => 0
  | f + 1, off => if byteAt m off = 0 then 0 else cstrLenAux m f (off + 1) + 1

/-- `string_len` from smoldtb.c, for a NUL-terminated string starting at byte
offset `off` of region `m`. -/
def cstrLen (m : List Nat) (off : Nat) : Nat :=
  cstrLenAux m (m.length + 1 - off) off

/-- `strings_eq` from smoldtb.c: compares at most `len` bytes of the strings
at `oa` in `ma` and `ob` in `mb`, succeeding early when both strings end. -/
def strings_eq (ma mb : List Nat) (oa ob : Nat) : Nat → Bool
  | 0 => true
  | len + 1 =>
    if byteAt ma oa == 0 && byteAt mb ob == 0 then true
    else if !(byteAt ma oa == byteAt mb ob) then false
    else strings_eq ma mb (oa + 1) (ob + 1) len

/-- In-place list update (models a store through a pointer into an arena);
out-of-range indices leave the list unchanged. -/
def lset {α : Type} : List α → Nat → α → List α
  | [], _, _ => []
  | _ :: xs, 0, v => v :: xs
  | x :: xs, i + 1, v => x :: lset xs i v

/-- `struct dtb_node_t` from smoldtb.c.  Pointers become arena indices
(`Option Nat`); `name` is a byte offset into the structure block, `none`
standing for the C's NULL name of the unnamed root. -/
structure dtb_node where
  parent : Option Nat
  sibling : Option Nat
  child : Option Nat
  props : Option Nat
  name : Option Nat
deriving Repr, DecidableEq

instance : Inhabited dtb_node := ⟨⟨none, none, none, none, none⟩⟩

/-- `struct dtb_prop_t` from smoldtb.c.  `name` is a byte offset into the
strings block, `first_cell` a cell index into the structure block. -/
structure dtb_prop where
  name : Nat
  first_cell : Nat
  length : Nat
  next : Option Nat
deriving Repr, DecidableEq

instance : Inhabited dtb_prop := ⟨⟨0, 0, 0, none⟩⟩

/-- `struct dtb_state` from smoldtb.c.  The two bump arenas are lists whose
length is the allocation head (`node_alloc_head` = `nodes.length`); the host
ops and the blob pointer are abstracted away, `structBytes`/`stringsBytes`
being the two regions of the blob the parser actually reads. -/
structure dtb_state where
  structBytes : List Nat
  stringsBytes : List Nat
  cell_count : Nat
  nodes : List dtb_node
  node_alloc_max : Nat
  props : List dtb_prop
  prop_alloc_max : Nat
  handle_lookup : List (Option Nat)
  root : Option Nat
deriving Repr, DecidableEq

instance : Inhabited dtb_state := ⟨⟨[], [], 0, [], 0, [], 0, [], none⟩⟩

/-- Dereference a node arena index. -/
def getNode (st : dtb_state) (i : Nat) : dtb_node := st.nodes.getD i default

/-- Dereference a property arena index. -/
def getProp (st : dtb_state) (i : Nat) : dtb_prop := st.props.getD i default

/-- Store through a node pointer. -/
def setNode (st : dtb_state) (i : Nat) (f : dtb_node → dtb_node) : dtb_state :=
  { st with nodes := lset st.nodes i (f (getNode st i)) }

/-- Store through a property pointer. -/
def setProp (st : dtb_state) (i : Nat) (f : dtb_prop → dtb_prop) : dtb_state :=
  { st with props := lset st.props i (f (getProp st i)) }

/-- `alloc_node` from smoldtb.c: bump allocation with the source's
`head + 1 < max` bound check (note: this refuses the final arena slot). -/
def alloc_node (st : dtb_state) : Option Nat × dtb_state :=
  if st.nodes.length + 1 < st.node_alloc_max then
    (some st.nodes.length, { st with nodes := st.nodes ++ [default] })
  else (none, st)

/-- `alloc_prop` from smoldtb.c. -/
def alloc_prop (st : dtb_state) : Option Nat × dtb_state :=
  if st.props.length + 1 < st.prop_alloc_max then
    (some st.props.length, { st with props := st.props ++ [default] })
  else (none, st)

/-- Loop body of `extract_cells` from smoldtb.c; `value` is the 64-bit
accumulator (`uintmax_t`), so every shifted cell is reduced mod 2^64 as the
hardware store would. The first argument counts the remaining iterations. -/
def extract_cells_aux (m : List Nat) (base count : Nat) : Nat → Nat → Nat → Nat
  | 0, _, value => value
  | r + 1, i, value =>
    extract_cells_aux m base count r (i + 1)
      (value ||| ((cellBE m (base + i) <<< ((count - 1 - i) * 32)) % 18446744073709551616))

/-- `extract_cells` from smoldtb.c: assembles `count` big-endian cells starting
at cell index `base` into one host integer. -/
def extract_cells (m : List Nat) (base count : Nat) : Nat :=
  extract_cells_aux m base count count 0 0

/-- `dtb_read_prop_values` from smoldtb.c.  The C out-parameter `vals` is
modelled by the flag `withOut`: the second component is `some` of the written
values exactly when the C would have written them, `none` when `vals == NULL`
or on the early returns. -/
def dtb_read_prop_values (st : dtb_state) (prop : Option Nat) (cell_count : Nat)
    (withOut : Bool) : Nat × Option (List Nat) :=
  match prop with
  | none => (0, none)
  | some pi =>
    if cell_count = 0 then (0, none)
    else
      let p := getProp st pi
      let count := cellBE st.structBytes (p.first_cell - 2) / (cell_count * 4)
      if withOut then
        (count, some ((List.range count).map fun i =>
          extract_cells st.structBytes (p.first_cell + i * cell_count) cell_count))
      else (count, none)

/-- `dtb_read_prop_pairs` from smoldtb.c. -/
def dtb_read_prop_pairs (st : dtb_state) (prop : Option Nat) (la lb : Nat)
    (withOut : Bool) : Nat × Option (List (Nat × Nat)) :=
  match prop with
  | none => (0, none)
  | some pi =>
    if la = 0 ∨ lb = 0 then (0, none)
    else
      let p := getProp st pi
      let count := cellBE st.structBytes (p.first_cell - 2) / ((la + lb) * 4)
      if withOut then
        (count, some ((List.range count).map fun i =>
          (extract_cells st.structBytes (p.first_cell + i * (la + lb)) la,
           extract_cells st.structBytes (p.first_cell + i * (la + lb) + la) lb)))
      else (count, none)

/-- `dtb_read_prop_triplets` from smoldtb.c. -/
def dtb_read_prop_triplets (st : dtb_state) (prop : Option Nat) (la lb lc : Nat)
    (withOut : Bool) : Nat × Option (List (Nat × Nat × Nat)) :=
  match prop with
  | none => (0, none)
  | some pi =>
    if la = 0 ∨ lb = 0 ∨ lc = 0 then (0, none)
    else
      let p := getProp st pi
      let stride := la + lb + lc
      let count := cellBE st.structBytes (p.first_cell - 2) / (stride * 4)
      if withOut then
        (count, some ((List.range count).map fun i =>
          (extract_cells st.structBytes (p.first_cell + i * stride) la,
           extract_cells st.structBytes (p.first_cell + i * stride + la) lb,
           extract_cells st.structBytes (p.first_cell + i * stride + la + lb) lc)))
      else (count, none)

/-- `dtb_read_prop_quads` from smoldtb.c. -/
def dtb_read_prop_quads (st : dtb_state) (prop : Option Nat) (la lb lc ld : Nat)
    (withOut : Bool) : Nat × Option (List (Nat × Nat × Nat × Nat)) :=
  match prop with
  | none => (0, none)
  | some pi =>
    if la = 0 ∨ lb = 0 ∨ lc = 0 ∨ ld = 0 then (0, none)
    else
      let p := getProp st pi
      let stride := la + lb + lc + ld
      let count := cellBE st.structBytes (p.first_cell - 2) / (stride * 4)
      if withOut then
        (count, some ((List.range count).map fun i =>
          (extract_cells st.structBytes (p.first_cell + i * stride) la,
           extract_cells st.structBytes (p.first_cell + i * stride + la) lb,
           extract_cells st.structBytes (p.first_cell + i * stride + la + lb) lc,
           extract_cells st.structBytes (p.first_cell + i * stride + la + lb + lc) ld)))
      else (count, none)

/-- Loop body of `dtb_read_prop_string` from smoldtb.c: scans `scansLeft`
further bytes of the window starting at byte `baseOff + scan`, `curr` counting
the NUL bytes seen so far.  Note the window the caller supplies is
`prop->length * 4` bytes, exactly as in the source. -/
def read_prop_string_aux (m : List Nat) (baseOff index : Nat) :
    Nat → Nat → Nat → Option Nat
  | 0, _, _ => none
  | scansLeft + 1, scan, curr =>
    if byteAt m (baseOff + scan) = 0 then
      read_prop_string_aux m baseOff index scansLeft (scan + 1) (curr + 1)
    else if curr = index then some (baseOff + scan)
    else read_prop_string_aux m baseOff index scansLeft (scan + 1) curr

/-- `dtb_read_prop_string` from smoldtb.c: returns the byte offset (into the
structure block) of the `index`-th NUL-terminated string of the property
payload, scanning a window of `prop->length * 4` bytes as the source does. -/
def dtb_read_prop_string (st : dtb_state) (prop : Option Nat) (index : Nat) :
    Option Nat :=
  match prop with
  | none => none
  | some pi =>
    let p := getProp st pi
    read_prop_string_aux st.structBytes (4 * p.first_cell) index (p.length * 4) 0 0

/-- The byte string "phandle". -/
def phandleStr : List Nat := [112, 104, 97, 110, 100, 108, 101]

/-- The byte string "linux,phandle". -/
def lphandleStr : List Nat := [108, 105, 110, 117, 120, 44, 112, 104, 97, 110, 100, 108, 101]

/-- `check_for_special_prop` from smoldtb.c.  The source's early-out is the
tautology `name0 != '#' || name0 != 'p' || name0 != 'l'`, which is translated
verbatim; the branch below it (the phandle recording) is consequently dead
code, but is translated for completeness.  The C reads the handle through an
out-parameter of `dtb_read_prop_values`; an uninitialised read (count 0) is
modelled as 0. -/
def check_for_special_prop (st : dtb_state) (node prop : Nat) : dtb_state :=
  let name0 := byteAt st.stringsBytes (getProp st prop).name
  if name0 ≠ 35 ∨ name0 ≠ 112 ∨ name0 ≠ 108 then st
  else
    let nameLen := cstrLen st.stringsBytes (getProp st prop).name
    if nameLen == 7 && strings_eq st.stringsBytes phandleStr (getProp st prop).name 0 nameLen then
      let handle := ((dtb_read_prop_values st (some prop) 1 true).2.getD []).getD 0 0
      { st with handle_lookup := lset st.handle_lookup handle (some node) }
    else if nameLen == 13 && strings_eq st.stringsBytes lphandleStr (getProp st prop).name 0 nameLen then
      let handle := ((dtb_read_prop_values st (some prop) 1 true).2.getD []).getD 0 0
      { st with handle_lookup := lset st.handle_lookup handle (some node) }
    else st

/-- `parse_prop` from smoldtb.c.  Returns the allocated property index (or
`none`), the updated cursor and the updated state.  As in the source, the
cursor has already been advanced past the PROP token when allocation fails. -/
def parse_prop (st : dtb_state) (offset : Nat) : Option Nat × Nat × dtb_state :=
  if cellBE st.structBytes offset ≠ 3 then (none, offset, st)
  else
    let offset := offset + 1
    match alloc_prop st with
    | (none, st) => (none, offset, st)
    | (some pi, st) =>
      let len := cellBE st.structBytes offset
      let nameOff := cellBE st.structBytes (offset + 1)
      let st := setProp st pi fun p =>
        { p with name := nameOff, first_cell := offset + 2, length := len }
      (some pi, offset + dtb_align_up len 4 / 4 + 2, st)

mutual

/-- `parse_node` from smoldtb.c, fuel-bounded.  On alloc failure the cursor is
left unchanged, exactly as in the source (which is what makes the C loop in
`parse_node`'s caller able to spin forever; fuel exhaustion models that). -/
def parse_node : Nat → dtb_state → Nat → Option Nat × Nat × dtb_state
  | 0, st, offset => (none, offset, st)
  | fuel + 1, st, offset =>
    if cellBE st.structBytes offset ≠ 1 then (none, offset, st)
    else
      match alloc_node st with
      | (none, st) => (none, offset, st)
      | (some ni, st) =>
        let nameOff := 4 * (offset + 1)
        let nameLen := cstrLen st.structBytes nameOff
        let st := setNode st ni fun n =>
          { n with name := if nameLen = 0 then none else some nameOff }
        let offset := offset + dtb_align_up (nameLen + 1) 4 / 4 + 1
        parse_children fuel st offset ni

/-- The token loop inside `parse_node` from smoldtb.c (everything after the
name has been consumed). -/
def parse_children : Nat → dtb_state → Nat → Nat → Option Nat × Nat × dtb_state
  | 0, st, offset, _ => (none, offset, st)
  | fuel + 1, st, offset, ni =>
    if offset < st.cell_count then
      if cellBE st.structBytes offset = 2 then (some ni, offset + 1, st)
      else if cellBE st.structBytes offset = 1 then
        match parse_node fuel st offset with
        | (none, offset', st') => parse_children fuel st' offset' ni
        | (some ci, offset', st') =>
          parse_children fuel
            (setNode (setNode st' ci fun c =>
                { c with sibling := (getNode st' ni).child, parent := some ni })
              ni fun n => { n with child := some ci })
            offset' ni
      else if cellBE st.structBytes offset = 3 then
        match parse_prop st offset with
        | (none, offset', st') => parse_children fuel st' offset' ni
        | (some pi, offset', st') =>
          parse_children fuel
            (check_for_special_prop
              (setNode (setProp st' pi fun p => { p with next := (getNode st' ni).props })
                ni fun n => { n with props := some pi })
              ni pi)
            offset' ni
      else parse_children fuel st (offset + 1) ni
    else (none, offset, st)

end

mutual

/-- Ghost replay of `parse_node`: the arena indices of the children of the
node parsed at `offset`, in the order they appear in the blob's structure
block (first encountered first).  Re-runs the source functions to thread the
state exactly as `parse_node` does. -/
def parse_node_kids : Nat → dtb_state → Nat → List Nat
  | 0, _, _ => []
  | fuel + 1, st, offset =>
    if cellBE st.structBytes offset ≠ 1 then []
    else
      match alloc_node st with
      | (none, _) => []
      | (some ni, st) =>
        let nameOff := 4 * (offset + 1)
        let nameLen := cstrLen st.structBytes nameOff
        let st := setNode st ni fun n =>
          { n with name := if nameLen = 0 then none else some nameOff }
        let offset := offset + dtb_align_up (nameLen + 1) 4 / 4 + 1
        parse_children_kids fuel st offset ni

/-- Ghost replay of `parse_children`: successfully parsed child indices in
blob order. -/
def parse_children_kids : Nat → dtb_state → Nat → Nat → List Nat
  | 0, _, _, _ => []
  | fuel + 1, st, offset, ni =>
    if offset < st.cell_count then
      if cellBE st.structBytes offset = 2 then []
      else if cellBE st.structBytes offset = 1 then
        match parse_node fuel st offset with
        | (none, offset', st') => parse_children_kids fuel st' offset' ni
        | (some ci, offset', st') =>
          ci :: parse_children_kids fuel
            (setNode (setNode st' ci fun c =>
                { c with sibling := (getNode st' ni).child, parent := some ni })
              ni fun n => { n with child := some ci })
            offset' ni
      else if cellBE st.structBytes offset = 3 then
        match parse_prop st offset with
        | (none, offset', st') => parse_children_kids fuel st' offset' ni
        | (some pi, offset', st') =>
          parse_children_kids fuel
            (check_for_special_prop
              (setNode (setProp st' pi fun p => { p with next := (getNode st' ni).props })
                ni fun n => { n with props := some pi })
              ni pi)
            offset' ni
      else parse_children_kids fuel st (offset + 1) ni
    else []

end

/-- Number of cells among the first `cc` whose big-endian value is `t`
(the counting scan of `alloc_buffers` from smoldtb.c). -/
def count_tokens (m : List Nat) (cc t : Nat) : Nat :=
  (List.range cc).countP fun i => cellBE m i == t

/-- Big-endian header field `idx` (0 = magic, 2 = offset_structs,
3 = offset_strings, 9 = size_structs, ...) of a blob. -/
def headerField (blob : List Nat) (idx : Nat) : Nat := be32 (loadLE32 blob (4 * idx))

/-- The state `dtb_init_with_config` has built right before its top-level
parse loop: regions located from the header, arenas sized by `alloc_buffers`
(the zeroed phandle array included). -/
def mkInitState (blob : List Nat) : dtb_state :=
  let structBytes := blob.drop (headerField blob 2)
  let stringsBytes := blob.drop (headerField blob 3)
  let cc := headerField blob 9 / 4
  let nmax := count_tokens structBytes cc 1
  let pmax := count_tokens structBytes cc 3
  { structBytes := structBytes, stringsBytes := stringsBytes, cell_count := cc,
    nodes := [], node_alloc_max := nmax, props := [], prop_alloc_max := pmax,
    handle_lookup := List.replicate nmax none, root := none }

/-- The top-level parse loop of `dtb_init_with_config` from smoldtb.c.  `pf`
is the fuel handed to each `parse_node` call; note the loop's `i++` runs after
`parse_node` has moved the cursor, exactly as in the source. -/
def init_loop (pf : Nat) : Nat → dtb_state → Nat → dtb_state
  | 0, st, _ => st
  | fuel + 1, st, i =>
    if i < st.cell_count then
      if cellBE st.structBytes i ≠ 1 then init_loop pf fuel st (i + 1)
      else
        match parse_node pf st i with
        | (none, i', st') => init_loop pf fuel st' (i' + 1)
        | (some ni, i', st') =>
          let st2 := setNode st' ni fun n => { n with sibling := st'.root }
          init_loop pf fuel { st2 with root := some ni } (i' + 1)
    else st

/-- `dtb_init` / `dtb_init_with_config` from smoldtb.c: magic check, region
location, arena sizing, then the top-level parse loop.  Host ops and the
config record are abstracted (allocation is modelled directly); the fuel
`3 * cell_count + 8` is enough for any terminating execution of the C loops,
whose cursor advances at every step except on child-allocation failure. -/
def dtb_init (blob : List Nat) : Bool × dtb_state :=
  if be32 (loadLE32 blob 0) ≠ 0xD00DFEED then (false, default)
  else
    let st := mkInitState blob
    (true, init_loop (3 * st.cell_count + 8) (st.cell_count + 1) st 0)

/-- `dtb_find_phandle` from smoldtb.c. -/
def dtb_find_phandle (st : dtb_state) (handle : Nat) : Option Nat :=
  if handle < st.node_alloc_max then st.handle_lookup.getD handle none
  else none

/-- The search loop of `dtb_find_prop` from smoldtb.c, over the `next` chain. -/
def find_prop_loop (st : dtb_state) (name : List Nat) (nameLen : Nat) :
    Nat → Option Nat → Option Nat
  | 0, _ => none
  | _, none => none
  | fuel + 1, some pi =>
    let propNameLen := cstrLen st.stringsBytes (getProp st pi).name
    if propNameLen == nameLen &&
        strings_eq st.stringsBytes name (getProp st pi).name 0 propNameLen then some pi
    else find_prop_loop st name nameLen fuel (getProp st pi).next

/-- `dtb_find_prop` from smoldtb.c; the query string is a byte list (reads
past its end give 0, the C string terminator). -/
def dtb_find_prop (st : dtb_state) (node : Option Nat) (name : List Nat) :
    Option Nat :=
  match node with
  | none => none
  | some ni =>
    find_prop_loop st name (cstrLen name 0) (st.props.length + 1) (getNode st ni).props

/-- `dtb_get_sibling` from smoldtb.c. -/
def dtb_get_sibling (st : dtb_state) (node : Option Nat) : Option Nat :=
  match node with
  | none => none
  | some ni =>
    match (getNode st ni).sibling with
    | none => none
    | some s => some s

/-- `dtb_get_child` from smoldtb.c. -/
def dtb_get_child (st : dtb_state) (node : Option Nat) : Option Nat :=
  match node with
  | none => none
  | some ni => (getNode st ni).child

/-- `dtb_get_parent` from smoldtb.c. -/
def dtb_get_parent (st : dtb_state) (node : Option Nat) : Option Nat :=
  match node with
  | none => none
  | some ni => (getNode st ni).parent

/-- The index-walking loop of `dtb_get_prop` from smoldtb.c. -/
def get_prop_loop (st : dtb_state) : Nat → Option Nat → Nat → Option Nat
  | 0, _, _ => none
  | _, none, _ => none
  | fuel + 1, some pi, index =>
    if index = 0 then some pi
    else get_prop_loop st fuel (getProp st pi).next (index - 1)

/-- `dtb_get_prop` from smoldtb.c. -/
def dtb_get_prop (st : dtb_state) (node : Option Nat) (index : Nat) : Option Nat :=
  match node with
  | none => none
  | some ni => get_prop_loop st (st.props.length + 1) (getNode st ni).props index

/-- The `name` field of a `dtb_node_stat`: either the copied node-name pointer
or the static `"/"` literal substituted for the root. -/
inductive stat_name where
  | fromNode (p : Option Nat)
  | rootStr
deriving Repr, DecidableEq

/-- `dtb_node_stat` from smoldtb.h as used by `dtb_stat_node`. -/
structure dtb_node_stat where
  name : stat_name
  prop_count : Nat
  child_count : Nat
  sibling_count : Nat
deriving Repr, DecidableEq

/-- Length of a property `next` chain (the counting loops of `dtb_stat_node`). -/
def prop_chain_len (st : dtb_state) : Nat → Option Nat → Nat
  | 0, _ => 0
  | _, none => 0
  | fuel + 1, some pi => prop_chain_len st fuel (getProp st pi).next + 1

/-- Length of a node `sibling` chain. -/
def node_chain_len (st : dtb_state) : Nat → Option Nat → Nat
  | 0, _ => 0
  | _, none => 0
  | fuel + 1, some ni => node_chain_len st fuel (getNode st ni).sibling + 1

/-- `dtb_stat_node` from smoldtb.c.  The C's boolean result plus out-parameter
become an `Option`: `none` exactly when the C returns false (leaving the
out-struct untouched). -/
def dtb_stat_node (st : dtb_state) (node : Option Nat) : Option dtb_node_stat :=
  match node with
  | none => none
  | some ni =>
    let n := getNode st ni
    some
      { name := if some ni = st.root then stat_name.rootStr else stat_name.fromNode n.name
        prop_count := prop_chain_len st (st.props.length + 1) n.props
        child_count := node_chain_len st (st.nodes.length + 1) n.child
        sibling_count :=
          match n.parent with
          | none => 0
          | some pi => node_chain_len st (st.nodes.length + 1) (getNode st pi).child }

/-- The byte string "compatible". -/
def compatibleStr : List Nat := [99, 111, 109, 112, 97, 116, 105, 98, 108, 101]

/-- The inner `ci` loop of `dtb_find_compatible` from smoldtb.c: walk the
strings of the node's `compatible` property until `dtb_read_prop_string`
returns NULL, testing each with `strings_eq` against the query.  The fuel
`p.length * 4 + 1` supplied by `node_compat_matches` is exact: the read
returns `none` for any index at or beyond the scan window. -/
def compat_scan (st : dtb_state) (prop : Nat) (query : List Nat) (queryLen : Nat) :
    Nat → Nat → Bool
  | 0, _ => false
  | fuel + 1, ci =>
    match dtb_read_prop_string st (some prop) ci with
    | none => false
    | some off =>
      if strings_eq st.structBytes query off 0 queryLen then true
      else compat_scan st prop query queryLen fuel (ci + 1)

/-- Per-node body of the `dtb_find_compatible` scan: does node `i` have a
`compatible` property one of whose strings matches the query under
`strings_eq`? -/
def node_compat_matches (st : dtb_state) (i : Nat) (query : List Nat) : Bool :=
  match dtb_find_prop st (some i) compatibleStr with
  | none => false
  | some ci =>
    compat_scan st ci query (cstrLen query 0) ((getProp st ci).length * 4 + 1) 0

/-- The arena-index loop of `dtb_find_compatible`; the first argument is the
number of remaining indices (`node_alloc_head - i`). -/
def find_compat_loop (st : dtb_state) (query : List Nat) : Nat → Nat → Option Nat
  | 0, _ => none
  | remaining + 1, i =>
    if node_compat_matches st i query then some i
    else find_compat_loop st query remaining (i + 1)

/-- `dtb_find_compatible` from smoldtb.c: pointer arithmetic on the node arena
becomes index arithmetic (`begin_index = start + 1`). -/
def dtb_find_compatible (st : dtb_state) (start : Option Nat) (query : List Nat) :
    Option Nat :=
  let beginIndex := match start with | none => 0 | some s => s + 1
  find_compat_loop st query (st.nodes.length - beginIndex) beginIndex

/-- `struct finalise_data` from smoldtb.c; the two output buffers become byte
lists built up in emission order (`struct_out.length = 4 * struct_ptr`). -/
structure finalise_data where
  struct_out : List Nat
  string_out : List Nat
  struct_ptr : Nat
  string_ptr : Nat
  struct_buf_size : Nat
  string_buf_size : Nat
  print_success : Bool
deriving Repr, DecidableEq

/-- Bytes `off .. off+len-1` of region `m`. -/
def memBytes (m : List Nat) (off len : Nat) : List Nat :=
  (List.range len).map fun j => byteAt m (off + j)

/-- The four bytes of cell `ci` of region `m` (a verbatim 32-bit copy). -/
def cellBytes (m : List Nat) (ci : Nat) : List Nat := memBytes m (4 * ci) 4

/-- Verbatim copy of `cnt` cells starting at cell `fc` (the payload copy loop
of `print_prop`). -/
def copyCells (m : List Nat) (fc : Nat) : Nat → List Nat
  | 0 => []
  | n + 1 => copyCells m fc n ++ cellBytes m (fc + n)

/-- The name of node `ni` as the C reads it: byte offset into the structure
block, or the NULL pointer (length 0) for the unnamed root. -/
def nodeNameLen (st : dtb_state) (ni : Nat) : Nat :=
  match (getNode st ni).name with
  | none => 0
  | some off => cstrLen st.structBytes off

/-- The bytes of node `ni`'s name (empty for a NULL name). -/
def nodeNameBytes (st : dtb_state) (ni : Nat) : List Nat :=
  match (getNode st ni).name with
  | none => []
  | some off => memBytes st.structBytes off (cstrLen st.structBytes off)

/-- `init_finalise_data_prop` folded over a property chain
(`do_foreach_prop` + the sizing action from smoldtb.c). -/
def size_props (st : dtb_state) : Nat → Option Nat → finalise_data → finalise_data
  | 0, _, fd => fd
  | _, none, fd => fd
  | fuel + 1, some pi, fd =>
    let p := getProp st pi
    let fd := { fd with
      struct_buf_size := fd.struct_buf_size + 3 + dtb_align_up p.length 4 / 4,
      string_buf_size := fd.string_buf_size + cstrLen st.stringsBytes p.name + 1 }
    size_props st fuel p.next fd

/-- `init_finalise_data` folded over a sibling chain (`do_foreach_sibling`
with the sizing action, which itself recurses into the children). -/
def size_nodes (st : dtb_state) : Nat → Option Nat → finalise_data → finalise_data
  | 0, _, fd => fd
  | _, none, fd => fd
  | fuel + 1, some ni, fd =>
    let fd := { fd with
      struct_buf_size := fd.struct_buf_size + 2 +
        dtb_align_up (nodeNameLen st ni + 1) 4 / 4 }
    let fd := size_props st (st.props.length + 1) (getNode st ni).props fd
    let fd := size_nodes st fuel (getNode st ni).child fd
    size_nodes st fuel (getNode st ni).sibling fd

/-- `print_prop` from smoldtb.c for a single property: strings-block append
(name + NUL), then the bounds-checked 3 descriptor cells and the verbatim
payload cells.  As in the source, the name bytes are already written when the
structure-block bounds check fails. -/
def print_prop_one (st : dtb_state) (pi : Nat) (fd : finalise_data) : finalise_data :=
  let p := getProp st pi
  let name_offset := fd.string_ptr
  let name_len := cstrLen st.stringsBytes p.name
  if fd.string_ptr + name_len + 1 > fd.string_buf_size then
    { fd with print_success := false }
  else
    let fd := { fd with
      string_out := fd.string_out ++ memBytes st.stringsBytes p.name name_len ++ [0],
      string_ptr := fd.string_ptr + name_len + 1 }
    let data_cells := dtb_align_up p.length 4 / 4
    if fd.struct_ptr + 3 + data_cells > fd.struct_buf_size then
      { fd with print_success := false }
    else
      { fd with
        struct_out := fd.struct_out ++ u32be 3 ++ u32be p.length ++ u32be name_offset ++
          copyCells st.structBytes p.first_cell data_cells,
        struct_ptr := fd.struct_ptr + 3 + data_cells }

/-- `do_foreach_prop` with the `print_prop` action: aborts the walk as soon as
a bounds check has failed. -/
def print_props (st : dtb_state) : Nat → Option Nat → finalise_data → finalise_data
  | 0, _, fd => fd
  | _, none, fd => fd
  | fuel + 1, some pi, fd =>
    if fd.print_success = false then fd
    else print_props st fuel (getProp st pi).next (print_prop_one st pi fd)

/-- `print_node` from smoldtb.c folded over a sibling chain: BEGIN token, the
inline name padded to a cell boundary, the properties, the children, END
token.  The C only writes `name_len + 1` of the name cell's bytes and leaves
the rest of the (malloc'd) cell unwritten; the unwritten pad is modelled as
zero. -/
def print_nodes (st : dtb_state) : Nat → Option Nat → finalise_data → finalise_data
  | 0, _, fd => fd
  | _, none, fd => fd
  | fuel + 1, some ni, fd =>
    if fd.print_success = false then fd
    else
      let name_len := nodeNameLen st ni
      let name_cells := dtb_align_up (name_len + 1) 4 / 4
      if fd.struct_ptr + 1 + name_cells > fd.struct_buf_size then
        { fd with print_success := false }
      else
        let fd := { fd with
          struct_out := fd.struct_out ++ u32be 1 ++ nodeNameBytes st ni ++
            List.replicate (name_cells * 4 - name_len) 0,
          struct_ptr := fd.struct_ptr + 1 + name_cells }
        let fd := print_props st (st.props.length + 1) (getNode st ni).props fd
        if fd.print_success = false then fd
        else
          let fd := print_nodes st fuel (getNode st ni).child fd
          if fd.print_success = false then fd
          else if fd.struct_ptr + 1 > fd.struct_buf_size then
            { fd with print_success := false }
          else
            print_nodes st fuel (getNode st ni).sibling
              { fd with struct_out := fd.struct_out ++ u32be 2,
                        struct_ptr := fd.struct_ptr + 1 }

/-- The failure sentinel returned by `dtb_finalise_to_buffer`.  Modelled from
the spec: `SMOLDTB_FINALISE_FAILURE` is defined in smoldtb.h, which is not
part of src/; the spec only calls it "a failure sentinel", so it is modelled
as the size_t value -1. -/
def SMOLDTB_FINALISE_FAILURE : Nat := 18446744073709551615

/-- `dtb_finalise_to_buffer` from smoldtb.c.  The caller's buffer is modelled
by its address (`bufAddr`, 0 for NULL — used only by the guards) and size; the
second component of the result is `some` of the emitted blob bytes exactly
when the C performs the emission pass, `none` when it returns early as a
sizing query.  Note the guard is the source's `total_bytes < buffer_size`. -/
def dtb_finalise_to_buffer (st : dtb_state) (bufAddr bufSize boot_cpu_id : Nat) :
    Nat × Option (List Nat) :=
  let fd0 : finalise_data :=
    { struct_out := [], string_out := [], struct_ptr := 0, string_ptr := 0,
      struct_buf_size := 0, string_buf_size := 1, print_success := true }
  let fd := size_nodes st (st.nodes.length + 1) st.root fd0
  let struct_buf_bytes := fd.struct_buf_size * 4
  let total_bytes := fd.string_buf_size + struct_buf_bytes + 40 + 16
  if bufAddr = 0 ∨ total_bytes < bufSize then (total_bytes, none)
  else if bufAddr % 4 ≠ 0 then (total_bytes, none)
  else
    let offset_structs := 40 + 16
    let offset_strings := offset_structs + struct_buf_bytes
    let header :=
      u32be 0xD00DFEED ++ u32be total_bytes ++ u32be offset_structs ++
      u32be offset_strings ++ u32be 40 ++ u32be 17 ++ u32be 16 ++
      u32be boot_cpu_id ++ u32be fd.string_buf_size ++ u32be struct_buf_bytes
    let fd := { fd with struct_ptr := 0, string_ptr := 1, string_out := [0] }
    let fd := print_nodes st (st.nodes.length + 1) st.root fd
    let blob := header ++ List.replicate 16 0 ++ fd.struct_out ++ fd.string_out
    (if fd.print_success then total_bytes else SMOLDTB_FINALISE_FAILURE, some blob)

/-- Builds a test blob: FDT header (structure block at byte 40, strings block
right after it) followed by the given big-endian structure cells and strings
bytes. -/
def mkBlob (structWords strings : List Nat) : List Nat :=
  u32be 0xD00DFEED ++ u32be (40 + structWords.length * 4 + strings.length) ++
  u32be 40 ++ u32be (40 + structWords.length * 4) ++ u32be 0 ++ u32be 17 ++
  u32be 16 ++ u32be 0 ++ u32be strings.length ++ u32be (structWords.length * 4) ++
  (structWords.map u32be).flatten ++ strings

/-- The minimal valid blob of spec scenario S1: `BEGIN_NODE "" END_NODE
END_OF_STRUCT`, empty strings block. -/
def minB : List Nat := mkBlob [1, 0, 2, 9] []

/-- A blob whose root carries `phandle = <1>` and a helper property
`x = <3>` (the payload words 1 and 3 make the scan-based arena sizing admit
one node and two properties). -/
def phB : List Nat :=
  mkBlob [1, 0, 3, 4, 0, 1, 3, 4, 8, 3, 2, 9]
    (phandleStr ++ [0, 120, 0])

/-- A blob whose root carries `compatible = "ab"` (payload "ab\0", length 3)
and a helper property `z = <1 3>`. -/
def compatB : List Nat :=
  mkBlob [1, 0, 3, 3, 0, 0x61620000, 3, 8, 11, 1, 3, 2, 9]
    (compatibleStr ++ [0, 122, 0])

/-- A blob whose root carries `s = "x\0"` (length 2) followed by a helper
property `z = <1 3>`; used to exhibit `dtb_read_prop_string`'s scan window. -/
def strB : List Nat :=
  mkBlob [1, 0, 3, 2, 0, 0x78000000, 3, 8, 2, 1, 3, 2, 9]
    [115, 0, 122, 0]

/-- A blob with root children `a` (carrying `z = <1 3>`) and `b`, in that blob
order; used for the sibling-order claim. -/
def kidsB : List Nat :=
  mkBlob [1, 0, 1, 0x61000000, 3, 8, 0, 1, 3, 2, 1, 0x62000000, 2, 2, 9]
    [122, 0]

/-- A blob whose root carries properties `y` (empty payload, name at strings
offset 3) and `xx = <1>`; its re-serialization assigns different name offsets,
changing the scan-based arena sizing of the re-parse. -/
def roundB : List Nat :=
  mkBlob [1, 0, 3, 0, 3, 3, 4, 0, 1, 2, 9]
    [120, 120, 0, 121, 0]

/-- The re-serialization of `roundB`'s tree with an exactly-sized buffer, as a
blob. -/
def roundB2 : List Nat :=
  ((dtb_finalise_to_buffer (dtb_init roundB).2 4 102 0).2).getD []

/-- Spec-side definition, following the claim's words for comparison with
`dtb_find_compatible`: whether node `i`'s `compatible` property, viewed as a
list of NUL-terminated strings, contains a string exactly equal to the query
(byte-for-byte, same length).  Candidate strings are all the ones
`dtb_read_prop_string` can return (its result is `none` for any index at or
beyond the scan window, so the range bound is exhaustive). -/
def compat_exact_match (st : dtb_state) (i : Nat) (query : List Nat) : Bool :=
  match dtb_find_prop st (some i) compatibleStr with
  | none => false
  | some ci =>
    (List.range ((getProp st ci).length * 4 + 1)).any fun k =>
      match dtb_read_prop_string st (some ci) k with
      | none => false
      | some off =>
        cstrLen st.structBytes off == query.length &&
          strings_eq st.structBytes query off 0 (cstrLen st.structBytes off)

/-- A directly-constructed parser state holding one property whose descriptor
declares length 8 and whose payload is the two big-endian cells
`00 00 00 01 00 00 00 02` (spec scenario S3). -/
def c8St : dtb_state :=
  { structBytes := u32be 8 ++ u32be 0 ++ u32be 1 ++ u32be 2, stringsBytes := [],
    cell_count := 4, nodes := [], node_alloc_max := 0,
    props := [⟨0, 2, 8, none⟩], prop_alloc_max := 1,
    handle_lookup := [], root := none }

/-- The sibling chain hanging off pointer `o` is exactly the index list `l`:
each listed node's `sibling` field points at the rest of the list, ending in
the null pointer. -/
def chainIs (st : dtb_state) : Option Nat → List Nat → Prop
  | none, [] => True
  | some c, c' :: r => c' = c ∧ chainIs st (getNode st c).sibling r
  | none, _ :: _ => False
  | some _, [] => False

/-- A well-formed C query string: the byte list contains no NUL, so that its
C string length is its list length. -/
def nulFree (q : List Nat) : Prop := ∀ j, j < q.length → byteAt q j ≠ 0

/-- Property records produced by parsing carry their descriptor: `first_cell`
points two cells past the descriptor, whose length word equals the record's
`length` field. -/
def props_wf (st : dtb_state) : Prop :=
  ∀ p ∈ st.props, 2 ≤ p.first_cell ∧ cellBE st.structBytes (p.first_cell - 2) = p.length

def state_scalars_eq (st st' : dtb_state) : Prop :=
  st'.structBytes = st.structBytes ∧ st'.stringsBytes = st.stringsBytes ∧
  st'.cell_count = st.cell_count ∧ st'.node_alloc_max = st.node_alloc_max ∧
  st'.prop_alloc_max = st.prop_alloc_max ∧ st'.handle_lookup = st.handle_lookup ∧
  st'.root = st.root

def frame_all (st st' : dtb_state) : Prop :=
  state_scalars_eq st st' ∧ st.nodes.length ≤ st'.nodes.length ∧
  (∀ i, i < st.nodes.length → getNode st' i = getNode st i) ∧
  (props_wf st → props_wf st')

def frame_ex (st st' : dtb_state) (ni : Nat) : Prop :=
  state_scalars_eq st st' ∧ st.nodes.length ≤ st'.nodes.length ∧
  (∀ i, i < st.nodes.length → i ≠ ni → getNode st' i = getNode st i) ∧
  (props_wf st → props_wf st')

/-- The early-out of `check_for_special_prop` tests
`name0 != '#' || name0 != 'p' || name0 != 'l'`, which no byte can falsify, so
the function always returns with the state unchanged. -/
theorem check_for_special_prop_eq_self (st : dtb_state) (n p : Nat) :
    check_for_special_prop st n p = st := by
  have h : byteAt st.stringsBytes (getProp st p).name ≠ 35 ∨
      byteAt st.stringsBytes (getProp st p).name ≠ 112 ∨
      byteAt st.stringsBytes (getProp st p).name ≠ 108 := by omega
  simp only [check_for_special_prop]
  rw [if_pos h]

/-- C1: the claim says a `phandle` (or `linux,phandle`) property makes the
parser store its node into the phandle index so that `dtb_find_phandle`
returns it.  In the code, `check_for_special_prop`'s tautological early-out
(`name0 != '#' || name0 != 'p' || name0 != 'l'`) always fires, so the index is
never populated: after parsing `phB`, whose root (node 0) demonstrably carries
a `phandle` property decoding to 1, `dtb_find_phandle 1` is NULL. -/
theorem c1_phandle_index_never_populated :
    (∀ (st : dtb_state) (n p : Nat), check_for_special_prop st n p = st) ∧
    (dtb_init phB).2.root = some 0 ∧
    dtb_find_prop (dtb_init phB).2 (some 0) phandleStr = some 0 ∧
    dtb_read_prop_values (dtb_init phB).2 (some 0) 1 true = (1, some [1]) ∧
    dtb_find_phandle (dtb_init phB).2 1 = none :=
  ⟨check_for_special_prop_eq_self, by decide, by decide, by decide, by decide⟩

/-- C3: the claim says the minimal valid blob parses to a root that stats as
"/" with no properties or children.  In the code `alloc_node`'s
`head + 1 < max` bound refuses the last arena slot, and the minimal blob's
single `BEGIN_NODE` sizes the arena at exactly one node, so no node can be
allocated at all: `dtb_init` still returns true but the tree is empty and the
root cannot be statted. -/
theorem c3_minimal_blob_has_no_root :
    (dtb_init minB).1 = true ∧
    (dtb_init minB).2.node_alloc_max = 1 ∧
    (dtb_init minB).2.nodes = [] ∧
    (dtb_init minB).2.root = none ∧
    dtb_stat_node (dtb_init minB).2 (dtb_init minB).2.root = none := by
  refine ⟨by decide, by decide, by decide, by decide, ?_⟩
  have h : (dtb_init minB).2.root = none := by decide
  rw [h]
  rfl

/-- C2: the claim says a buffer smaller than the computed total makes
`dtb_finalise_to_buffer` act as a pure sizing query, and a large-enough
aligned buffer receives the emission.  The code's guard is
`total_bytes < buffer_size` (operands swapped), so with the empty tree of
`minB` (total 57) a 56-byte buffer receives a full 57-byte emission while a
58-byte buffer gets none; only the exact size 57 behaves as claimed. -/
theorem c2_finalise_size_guard_inverted :
    (dtb_finalise_to_buffer (dtb_init minB).2 4 56 0).1 = 57 ∧
    ((dtb_finalise_to_buffer (dtb_init minB).2 4 56 0).2).isSome = true ∧
    dtb_finalise_to_buffer (dtb_init minB).2 4 58 0 = (57, none) ∧
    ((dtb_finalise_to_buffer (dtb_init minB).2 4 57 0).2).isSome = true :=
  ⟨by decide, by decide, by decide, by decide⟩

/-- C4: the round-trip claim.  Parsing `roundB` yields a root with two
properties; serializing it with an exactly-sized buffer succeeds and the new
blob `roundB2` carries the claimed header (magic, version 17, last-compatible
16); but re-parsing `roundB2` yields a root with only one property — the
serializer renumbers name offsets, the re-parse's scan-based arena sizing
therefore counts only two PROP-valued words, and `alloc_prop`'s
`head + 1 < max` bound then admits a single property — so the re-parsed tree
is not structurally equal to the first. -/
theorem c4_round_trip_loses_a_property :
    (dtb_init roundB).1 = true ∧
    (dtb_init roundB).2.root = some 0 ∧
    (dtb_stat_node (dtb_init roundB).2 (some 0)).map dtb_node_stat.prop_count = some 2 ∧
    (dtb_finalise_to_buffer (dtb_init roundB).2 4 102 0).1 = 102 ∧
    headerField roundB2 0 = 0xD00DFEED ∧
    headerField roundB2 5 = 17 ∧
    headerField roundB2 6 = 16 ∧
    (dtb_init roundB2).1 = true ∧
    (dtb_init roundB2).2.root = some 0 ∧
    (dtb_stat_node (dtb_init roundB2).2 (some 0)).map dtb_node_stat.prop_count = some 1 :=
  ⟨by decide, by decide, by decide, by decide, by decide, by decide, by decide,
   by decide, by decide, by decide⟩

/-- C6: the claim says `dtb_read_prop_string` treats exactly the
length-in-bytes payload as a string list and returns NULL for any index at or
past its end.  The code's scan bound is `prop->length * 4` — it treats the
byte length as a cell count — so for `strB`'s property 0 (payload "x\0",
length 2, a single string) index 6 does not return NULL: the scan runs into
the following PROP token's bytes and returns a pointer at byte offset 27. -/
theorem c6_read_prop_string_overruns_payload :
    (dtb_init strB).2.root = some 0 ∧
    (getNode (dtb_init strB).2 0).props = some 1 ∧
    (getProp (dtb_init strB).2 0).length = 2 ∧
    (getProp (dtb_init strB).2 0).first_cell = 5 ∧
    byteAt (dtb_init strB).2.structBytes 20 = 120 ∧
    byteAt (dtb_init strB).2.structBytes 21 = 0 ∧
    dtb_read_prop_string (dtb_init strB).2 (some 0) 6 = some 27 :=
  ⟨by decide, by decide, by decide, by decide, by decide, by decide, by decide⟩

/-- C5 counterexample: the claim says `dtb_find_compatible` requires an exact
(byte-for-byte, same-length) match.  After parsing `compatB`, whose root's
`compatible` list is exactly ["ab"], the query "a" — a strict prefix of "ab",
equal to no entry — still returns the root, because `strings_eq` is called
with the query's length and so only compares the query's own bytes. -/
theorem c5_counterexample_prefix_query_matches :
    (dtb_init compatB).2.root = some 0 ∧
    compat_exact_match (dtb_init compatB).2 0 [97] = false ∧
    dtb_find_compatible (dtb_init compatB).2 none [97] = some 0 :=
  ⟨by decide, by decide, by decide⟩

/-- C10: every read-only query and decode entry point tolerates a NULL handle:
the node-taking queries return NULL (or false, i.e. `none` for the statted
record), and the property decoders return NULL or 0.  Each function is a pure
reader — its C body writes nothing to `state` and contains no `LOG_ERROR` —
which the embedding reflects by typing them as functions of the state. -/
theorem c10_null_handles_tolerated (st : dtb_state) (name : List Nat)
    (i k la lb lc ld : Nat) (w : Bool) :
    dtb_find_prop st none name = none ∧
    dtb_get_sibling st none = none ∧
    dtb_get_child st none = none ∧
    dtb_get_parent st none = none ∧
    dtb_get_prop st none i = none ∧
    dtb_stat_node st none = none ∧
    dtb_read_prop_string st none i = none ∧
    dtb_read_prop_values st none k w = (0, none) ∧
    dtb_read_prop_pairs st none la lb w = (0, none) ∧
    dtb_read_prop_triplets st none la lb lc w = (0, none) ∧
    dtb_read_prop_quads st none la lb lc ld w = (0, none) :=
  ⟨rfl, rfl, rfl, rfl, rfl, rfl, rfl, rfl, rfl, rfl, rfl⟩

/-- Disjoint-range bitwise-or is addition: when `b` fits below the `2^n`
boundary, or-ing it into a multiple of `2^n` is plain addition. -/
theorem two_pow_mul_lor_eq_add (n a b : Nat) (h : b < 2 ^ n) :
    (2 ^ n * a) ||| b = 2 ^ n * a + b := by
  induction n generalizing b with
  | zero =>
    have : b = 0 := by omega
    subst this
    simp
  | succ n ih =>
    have hb2 : b / 2 < 2 ^ n := by
      rw [pow_succ] at h
      omega
    have h1 : (2 : Nat) ^ (n + 1) * a = Nat.bit false (2 ^ n * a) := by
      rw [Nat.bit_val]
      simp [pow_succ]
      ring
    have h2 : b = Nat.bit b.bodd b.div2 := (Nat.bit_decomp b).symm
    have hdiv : Nat.div2 b = b / 2 := Nat.div2_val b
    have hmod := Nat.bodd_add_div2 b
    conv_lhs => rw [h1]
    conv_rhs => rw [h1]
    conv_lhs => rw [h2]
    rw [Nat.lor_bit, Nat.bit_val, Nat.bit_val, hdiv, ih _ hb2]
    simp only [Bool.false_or]
    rw [hdiv] at hmod
    cases hb : b.bodd <;> rw [hb] at hmod <;> simp at hmod ⊢ <;> omega

/-- The one-cell accumulation step of `extract_cells`, in modular form: the
accumulator holds cells at shifts `≥ t * 32`, the incoming cell lands at shift
`(t - 1) * 32`, and in the 64-bit accumulator the or is addition mod 2^64. -/
theorem or_mod_step (A b t : Nat) (ht : 1 ≤ t) (hb : b < 2 ^ 32) :
    (2 ^ (t * 32) * A) % 2 ^ 64 ||| (b * 2 ^ ((t - 1) * 32)) % 2 ^ 64 =
      (2 ^ (t * 32) * A + b * 2 ^ ((t - 1) * 32)) % 2 ^ 64 := by
  rcases Nat.lt_or_ge t 3 with h3 | h3
  · have ht' : t = 1 ∨ t = 2 := by omega
    rcases ht' with h | h <;> subst h
    · simp only [Nat.one_mul, Nat.sub_self, Nat.zero_mul, pow_zero, Nat.mul_one]
      have hA : (2 ^ 32 * A) % 2 ^ 64 = 2 ^ 32 * (A % 2 ^ 32) := by
        have h64 : (2 : Nat) ^ 64 = 2 ^ 32 * 2 ^ 32 := by norm_num
        rw [h64, Nat.mul_mod_mul_left]
      have hbm : b % 2 ^ 64 = b := Nat.mod_eq_of_lt (lt_trans hb (by norm_num))
      rw [hA, hbm, two_pow_mul_lor_eq_add _ _ _ hb]
      have hdecomp : 2 ^ 32 * A + b = (2 ^ 32 * (A % 2 ^ 32) + b) + (A / 2 ^ 32) * 2 ^ 64 := by
        conv_lhs => rw [← Nat.div_add_mod A (2 ^ 32)]
        ring
      rw [hdecomp, Nat.add_mul_mod_self_right]
      have hlt : 2 ^ 32 * (A % 2 ^ 32) + b < 2 ^ 64 := by
        have h1 : A % 2 ^ 32 < 2 ^ 32 := Nat.mod_lt _ (by norm_num)
        nlinarith
      rw [Nat.mod_eq_of_lt hlt]
    · rw [show 2 * 32 = 64 by norm_num, show (2 - 1) * 32 = 32 by norm_num,
        Nat.mul_mod_right]
      have hbm : b * 2 ^ 32 % 2 ^ 64 = b * 2 ^ 32 := by
        apply Nat.mod_eq_of_lt
        nlinarith
      rw [hbm, Nat.zero_or]
      rw [Nat.mul_comm ((2 : Nat) ^ 64) A, Nat.add_comm, Nat.add_mul_mod_self_right, hbm]
  · have e1 : t * 32 = 64 + (t * 32 - 64) := by omega
    have e2 : (t - 1) * 32 = 64 + ((t - 1) * 32 - 64) := by omega
    rw [e1, e2, pow_add, pow_add]
    have hz1 : 2 ^ 64 * 2 ^ (t * 32 - 64) * A % 2 ^ 64 = 0 := by
      rw [Nat.mul_assoc]
      exact Nat.mul_mod_right _ _
    have hz2 : b * (2 ^ 64 * 2 ^ ((t - 1) * 32 - 64)) % 2 ^ 64 = 0 := by
      rw [show b * (2 ^ 64 * 2 ^ ((t - 1) * 32 - 64)) =
        2 ^ 64 * (b * 2 ^ ((t - 1) * 32 - 64)) by ring]
      exact Nat.mul_mod_right _ _
    have hz3 : (2 ^ 64 * 2 ^ (t * 32 - 64) * A +
        b * (2 ^ 64 * 2 ^ ((t - 1) * 32 - 64))) % 2 ^ 64 = 0 := by
      rw [show 2 ^ 64 * 2 ^ (t * 32 - 64) * A + b * (2 ^ 64 * 2 ^ ((t - 1) * 32 - 64)) =
        2 ^ 64 * (2 ^ (t * 32 - 64) * A + b * 2 ^ ((t - 1) * 32 - 64)) by ring]
      exact Nat.mul_mod_right _ _
    rw [hz1, hz2, hz3, Nat.zero_or]

/-- `be32` always produces a 32-bit value. -/
theorem be32_lt (x : Nat) : be32 x < 2 ^ 32 := by
  have hb1 : (x &&& 0xFF) <<< 24 < 2 ^ 32 := by
    rw [Nat.shiftLeft_eq]
    have h : x &&& 0xFF ≤ 0xFF := Nat.and_le_right
    calc (x &&& 0xFF) * 2 ^ 24 ≤ 0xFF * 2 ^ 24 := Nat.mul_le_mul_right _ h
    _ < 2 ^ 32 := by norm_num
  have hb2 : (x &&& 0xFF00) <<< 8 < 2 ^ 32 := by
    rw [Nat.shiftLeft_eq]
    have h : x &&& 0xFF00 ≤ 0xFF00 := Nat.and_le_right
    calc (x &&& 0xFF00) * 2 ^ 8 ≤ 0xFF00 * 2 ^ 8 := Nat.mul_le_mul_right _ h
    _ < 2 ^ 32 := by norm_num
  have hb3 : (x &&& 0xFF0000) >>> 8 < 2 ^ 32 := by
    rw [Nat.shiftRight_eq_div_pow]
    have h : x &&& 0xFF0000 ≤ 0xFF0000 := Nat.and_le_right
    calc (x &&& 0xFF0000) / 2 ^ 8 ≤ x &&& 0xFF0000 := Nat.div_le_self _ _
    _ ≤ 0xFF0000 := h
    _ < 2 ^ 32 := by norm_num
  have hb4 : (x &&& 0xFF000000) >>> 24 < 2 ^ 32 := by
    rw [Nat.shiftRight_eq_div_pow]
    have h : x &&& 0xFF000000 ≤ 0xFF000000 := Nat.and_le_right
    calc (x &&& 0xFF000000) / 2 ^ 24 ≤ x &&& 0xFF000000 := Nat.div_le_self _ _
    _ ≤ 0xFF000000 := h
    _ < 2 ^ 32 := by norm_num
  exact Nat.or_lt_two_pow (Nat.or_lt_two_pow (Nat.or_lt_two_pow hb1 hb2) hb3) hb4

/-- Loop invariant of `extract_cells`: with the first `i` (most significant)
cells already accumulated, running the remaining `r` iterations produces the
full sum mod 2^64. -/
theorem extract_cells_aux_spec (m : List Nat) (base count : Nat) :
    ∀ r i, i + r = count →
    extract_cells_aux m base count r i
        ((∑ j ∈ Finset.range i, cellBE m (base + j) * 2 ^ ((count - 1 - j) * 32)) % 2 ^ 64) =
      (∑ j ∈ Finset.range count, cellBE m (base + j) * 2 ^ ((count - 1 - j) * 32)) % 2 ^ 64 := by
  intro r
  induction r with
  | zero =>
    intro i hi
    have : i = count := by omega
    subst this
    rfl
  | succ r ih =>
    intro i hi
    have hic : i < count := by omega
    show extract_cells_aux m base count r (i + 1) _ = _
    have hstep :
        ((∑ j ∈ Finset.range i, cellBE m (base + j) * 2 ^ ((count - 1 - j) * 32)) % 2 ^ 64) |||
          ((cellBE m (base + i) <<< ((count - 1 - i) * 32)) % 18446744073709551616) =
        (∑ j ∈ Finset.range (i + 1), cellBE m (base + j) * 2 ^ ((count - 1 - j) * 32)) % 2 ^ 64 := by
      have hR : (18446744073709551616 : Nat) = 2 ^ 64 := by norm_num
      rw [hR, Nat.shiftLeft_eq, Finset.sum_range_succ]
      have hfact : ∑ j ∈ Finset.range i, cellBE m (base + j) * 2 ^ ((count - 1 - j) * 32) =
          2 ^ ((count - i) * 32) *
            ∑ j ∈ Finset.range i, cellBE m (base + j) * 2 ^ ((i - 1 - j) * 32) := by
        rw [Finset.mul_sum]
        apply Finset.sum_congr rfl
        intro j hj
        rw [Finset.mem_range] at hj
        have he : (count - 1 - j) * 32 = (count - i) * 32 + (i - 1 - j) * 32 := by
          have : count - 1 - j = (count - i) + (i - 1 - j) := by omega
          rw [this, Nat.add_mul]
        rw [he, pow_add]
        ring
      have hexp : count - 1 - i = (count - i) - 1 := by omega
      rw [hfact, hexp]
      exact or_mod_step _ _ _ (by omega) (be32_lt _)
    rw [hstep]
    exact ih (i + 1) (by omega)

/-- `extract_cells` computes the big-endian weighted sum of its cells, reduced
to the 64-bit accumulator. -/
theorem extract_cells_eq_sum (m : List Nat) (base count : Nat) :
    extract_cells m base count =
      (∑ j ∈ Finset.range count, cellBE m (base + j) * 2 ^ ((count - 1 - j) * 32)) % 2 ^ 64 := by
  have h := extract_cells_aux_spec m base count count 0 (by omega)
  simpa [extract_cells] using h

/-- Every structure-block cell value fits in 32 bits. -/
theorem cellBE_lt (m : List Nat) (i : Nat) : cellBE m i < 2 ^ 32 := be32_lt _

/-- C8: cell-group assembly.  `extract_cells` over `k` cells equals the sum of
`be32(p[i])` shifted by `(k-1-i)*32` bits — reduced to the 64-bit accumulator
in general, and exactly for every group of at most two cells (the widest a
64-bit `uintmax_t` can hold; wider shifts leave C's defined behaviour).  In
particular, for the two-cell payload `00 00 00 01 00 00 00 02` of length 8,
`dtb_read_prop_values(p, 2, out)` returns 1 and writes `0x100000002`. -/
theorem c8_cell_assembly :
    (∀ (m : List Nat) (base count : Nat),
      extract_cells m base count =
        (∑ j ∈ Finset.range count, cellBE m (base + j) * 2 ^ ((count - 1 - j) * 32)) % 2 ^ 64) ∧
    (∀ (m : List Nat) (base count : Nat), count ≤ 2 →
      extract_cells m base count =
        ∑ j ∈ Finset.range count, cellBE m (base + j) * 2 ^ ((count - 1 - j) * 32)) ∧
    dtb_read_prop_values c8St (some 0) 2 true = (1, some [4294967298]) := by
  refine ⟨extract_cells_eq_sum, ?_, by decide⟩
  intro m base count hc
  rw [extract_cells_eq_sum]
  apply Nat.mod_eq_of_lt
  interval_cases count
  · simp
  · rw [Finset.sum_range_one]
    have h1 : cellBE m (base + 0) < 2 ^ 32 := cellBE_lt m _
    have h2 : (2 : Nat) ^ ((1 - 1 - 0) * 32) = 1 := by norm_num
    rw [h2]
    omega
  · rw [Finset.sum_range_succ, Finset.sum_range_one]
    have h1 : cellBE m (base + 0) < 2 ^ 32 := cellBE_lt m _
    have h2 : cellBE m (base + 1) < 2 ^ 32 := cellBE_lt m _
    have e1 : (2 : Nat) ^ ((2 - 1 - 0) * 32) = 2 ^ 32 := by norm_num
    have e2 : (2 : Nat) ^ ((2 - 1 - 1) * 32) = 1 := by norm_num
    rw [e1, e2]
    nlinarith

/-- Witness for `c8_cell_assembly`'s bounded-width clause at a concrete
two-cell group. -/
theorem c8_cell_assembly_witness :
    (2 : Nat) ≤ 2 ∧ extract_cells c8St.structBytes 2 2 =
      ∑ j ∈ Finset.range 2, cellBE c8St.structBytes (2 + j) * 2 ^ ((2 - 1 - j) * 32) :=
  ⟨le_refl 2, c8_cell_assembly.2.1 c8St.structBytes 2 2 (by decide)⟩

theorem lset_length {α : Type} (l : List α) (i : Nat) (v : α) :
    (lset l i v).length = l.length := by
  induction l generalizing i with
  | nil => rfl
  | cons hd tl ih =>
    cases i with
    | zero => rfl
    | succ i => simp [lset, ih]

theorem getD_lset_ne {α : Type} (l : List α) (i j : Nat) (v d : α) (h : j ≠ i) :
    (lset l i v).getD j d = l.getD j d := by
  induction l generalizing i j with
  | nil => rfl
  | cons hd tl ih =>
    cases i with
    | zero =>
      cases j with
      | zero => omega
      | succ j => simp [lset]
    | succ i =>
      cases j with
      | zero => simp [lset]
      | succ j =>
        simp only [lset, List.getD_cons_succ]
        exact ih i j (by omega)

theorem getD_lset_self {α : Type} (l : List α) (i : Nat) (v d : α) (h : i < l.length) :
    (lset l i v).getD i d = v := by
  induction l generalizing i with
  | nil => simp at h
  | cons hd tl ih =>
    cases i with
    | zero => rfl
    | succ i => simpa [lset] using ih i (by simpa using h)

theorem lset_append_len {α : Type} (l : List α) (d v : α) :
    lset (l ++ [d]) l.length v = l ++ [v] := by
  induction l with
  | nil => rfl
  | cons hd tl ih => simp [lset, ih]

theorem getD_append_len {α : Type} (l : List α) (d x : α) :
    (l ++ [d]).getD l.length x = d := by
  induction l with
  | nil => rfl
  | cons hd tl ih =>
    rw [List.cons_append, List.length_cons, List.getD_cons_succ]
    exact ih

theorem getD_append_lt {α : Type} (l : List α) (v : α) (i : Nat) (d : α)
    (h : i < l.length) : (l ++ [v]).getD i d = l.getD i d := by
  induction l generalizing i with
  | nil => simp at h
  | cons hd tl ih =>
    cases i with
    | zero => rfl
    | succ i => simpa using ih i (by simpa using h)

theorem getD_mem {α : Type} (l : List α) (i : Nat) (d : α) (h : i < l.length) :
    l.getD i d ∈ l := by
  rw [List.getD_eq_getElem l d h]
  exact List.getElem_mem h

/-- Every step `parse_prop` takes either leaves the state unchanged or appends
exactly the property record the source builds (descriptor at the cell after
the PROP token, payload two cells later). -/
theorem parse_prop_cases (st : dtb_state) (offset : Nat) :
    (parse_prop st offset).2.2 = st ∨
    (parse_prop st offset).2.2 = { st with props := st.props ++
      [⟨cellBE st.structBytes (offset + 2), offset + 3, cellBE st.structBytes (offset + 1), none⟩] } := by
  by_cases h1 : cellBE st.structBytes offset ≠ 3
  · left
    simp [parse_prop, h1]
  · by_cases h2 : st.props.length + 1 < st.prop_alloc_max
    · right
      simp only [parse_prop, h1, if_false, alloc_prop, h2, if_true, setProp, getProp]
      rw [getD_append_len, lset_append_len]
      have e1 : offset + 1 + 1 = offset + 2 := by omega
      have e2 : offset + 1 + 2 = offset + 3 := by omega
      rw [e1, e2]
      rfl
    · left
      simp [parse_prop, h1, alloc_prop, h2]

theorem mem_lset {α : Type} (l : List α) (i : Nat) (v x : α) (h : x ∈ lset l i v) :
    x = v ∨ x ∈ l := by
  induction l generalizing i with
  | nil => simp [lset] at h
  | cons hd tl ih =>
    cases i with
    | zero =>
      rcases List.mem_cons.mp h with h | h
      · exact Or.inl h
      · exact Or.inr (List.mem_cons_of_mem _ h)
    | succ i =>
      rcases List.mem_cons.mp h with h | h
      · exact Or.inr (h ▸ List.mem_cons_self _ _)
      · rcases ih i h with h | h
        · exact Or.inl h
        · exact Or.inr (List.mem_cons_of_mem _ h)

theorem lset_oob {α : Type} (l : List α) (i : Nat) (v : α) (h : l.length ≤ i) :
    lset l i v = l := by
  induction l generalizing i with
  | nil => rfl
  | cons hd tl ih =>
    cases i with
    | zero => simp at h
    | succ i =>
      simp only [lset, List.cons.injEq, true_and]
      exact ih i (by simpa using h)

theorem getNode_setNode_ne (st : dtb_state) (i j : Nat) (f : dtb_node → dtb_node)
    (h : j ≠ i) : getNode (setNode st i f) j = getNode st j := by
  simp only [getNode, setNode]
  exact getD_lset_ne _ _ _ _ _ h

theorem getNode_setNode_self (st : dtb_state) (i : Nat) (f : dtb_node → dtb_node)
    (h : i < st.nodes.length) : getNode (setNode st i f) i = f (getNode st i) := by
  simp only [getNode, setNode]
  exact getD_lset_self _ _ _ _ h

theorem setNode_nodes_length (st : dtb_state) (i : Nat) (f : dtb_node → dtb_node) :
    (setNode st i f).nodes.length = st.nodes.length := lset_length _ _ _

theorem props_wf_setNode (st : dtb_state) (i : Nat) (f : dtb_node → dtb_node)
    (h : props_wf st) : props_wf (setNode st i f) := h

theorem props_wf_setProp_next (st : dtb_state) (pi : Nat) (nx : Option Nat)
    (h : props_wf st) : props_wf (setProp st pi fun p => { p with next := nx }) := by
  intro x hx
  simp only [setProp] at hx
  by_cases hlt : pi < st.props.length
  · rcases mem_lset _ _ _ _ hx with he | he
    · subst he
      have := h _ (getD_mem st.props pi default hlt)
      simpa [getProp] using this
    · exact h x he
  · rw [lset_oob _ _ _ (by omega)] at hx
    exact h x hx

theorem props_wf_parse_prop (st : dtb_state) (offset : Nat) (h : props_wf st) :
    props_wf (parse_prop st offset).2.2 := by
  rcases parse_prop_cases st offset with hc | hc <;> rw [hc]
  · exact h
  · intro x hx
    rcases List.mem_append.mp hx with hx | hx
    · exact h x hx
    · simp only [List.mem_singleton] at hx
      subst hx
      constructor
      · show 2 ≤ offset + 3
        omega
      · show cellBE st.structBytes (offset + 3 - 2) = cellBE st.structBytes (offset + 1)
        congr 1

theorem frame_all_refl (st : dtb_state) : frame_all st st :=
  ⟨⟨rfl, rfl, rfl, rfl, rfl, rfl, rfl⟩, le_refl _, fun _ _ => rfl, id⟩

theorem frame_all_trans {st1 st2 st3 : dtb_state} (h1 : frame_all st1 st2)
    (h2 : frame_all st2 st3) : frame_all st1 st3 := by
  obtain ⟨⟨a1, a2, a3, a4, a5, a6, a7⟩, hl, hg, hw⟩ := h1
  obtain ⟨⟨b1, b2, b3, b4, b5, b6, b7⟩, hl', hg', hw'⟩ := h2
  refine ⟨⟨?_, ?_, ?_, ?_, ?_, ?_, ?_⟩, le_trans hl hl', ?_, fun h => hw' (hw h)⟩
  all_goals try simp_all
  intro i hi
  rw [hg' i (lt_of_lt_of_le hi hl), hg i hi]

theorem frame_ex_of_all {st st' : dtb_state} (ni : Nat) (h : frame_all st st') :
    frame_ex st st' ni :=
  ⟨h.1, h.2.1, fun i hi _ => h.2.2.1 i hi, h.2.2.2⟩

theorem frame_ex_trans {st1 st2 st3 : dtb_state} {ni : Nat} (h1 : frame_ex st1 st2 ni)
    (h2 : frame_ex st2 st3 ni) : frame_ex st1 st3 ni := by
  obtain ⟨⟨a1, a2, a3, a4, a5, a6, a7⟩, hl, hg, hw⟩ := h1
  obtain ⟨⟨b1, b2, b3, b4, b5, b6, b7⟩, hl', hg', hw'⟩ := h2
  refine ⟨⟨?_, ?_, ?_, ?_, ?_, ?_, ?_⟩, le_trans hl hl', ?_, fun h => hw' (hw h)⟩
  all_goals try simp_all
  intro i hi hne
  rw [hg' i (lt_of_lt_of_le hi hl) hne, hg i hi hne]

theorem frame_ex_setNode (st : dtb_state) (ni : Nat) (f : dtb_node → dtb_node) :
    frame_ex st (setNode st ni f) ni := by
  refine ⟨⟨rfl, rfl, rfl, rfl, rfl, rfl, rfl⟩, ?_, ?_, props_wf_setNode st ni f⟩
  · rw [setNode_nodes_length]
  · intro i _ hne
    exact getNode_setNode_ne st ni i f hne

theorem frame_all_setProp_next (st : dtb_state) (pi : Nat) (nx : Option Nat) :
    frame_all st (setProp st pi fun p => { p with next := nx }) :=
  ⟨⟨rfl, rfl, rfl, rfl, rfl, rfl, rfl⟩, le_refl _, fun _ _ => rfl,
    props_wf_setProp_next st pi nx⟩

theorem frame_all_parse_prop (st : dtb_state) (offset : Nat) :
    frame_all st (parse_prop st offset).2.2 := by
  refine ⟨?_, ?_, ?_, props_wf_parse_prop st offset⟩ <;>
    rcases parse_prop_cases st offset with hc | hc <;> rw [hc] <;>
    first
      | exact ⟨rfl, rfl, rfl, rfl, rfl, rfl, rfl⟩
      | exact le_refl _
      | exact fun _ _ => rfl

theorem alloc_node_cases (st : dtb_state) :
    alloc_node st = (none, st) ∨
    alloc_node st = (some st.nodes.length, { st with nodes := st.nodes ++ [default] }) := by
  unfold alloc_node
  split
  · right
    rfl
  · left
    rfl

theorem frame_all_append_node (st : dtb_state) :
    frame_all st { st with nodes := st.nodes ++ [default] } := by
  refine ⟨⟨rfl, rfl, rfl, rfl, rfl, rfl, rfl⟩, by simp, ?_, fun h => h⟩
  intro i hi
  simp only [getNode]
  exact getD_append_lt _ _ _ _ hi

theorem frame_all_check_special (st : dtb_state) (n p : Nat) :
    frame_all st (check_for_special_prop st n p) := by
  rw [check_for_special_prop_eq_self]
  exact frame_all_refl st

/-- Combined frame property of the parser: `parse_node` leaves every
pre-existing node record (and all scalar state) intact and allocates its own
node at the entry allocation head; `parse_children st offset ni` additionally
may rewrite node `ni` itself, and returns either NULL or `ni`. -/
theorem parse_frame : ∀ fuel : Nat,
    (∀ st offset, frame_all st (parse_node fuel st offset).2.2 ∧
      (∀ n, (parse_node fuel st offset).1 = some n →
        n = st.nodes.length ∧ n < (parse_node fuel st offset).2.2.nodes.length)) ∧
    (∀ st offset ni, frame_ex st (parse_children fuel st offset ni).2.2 ni ∧
      ((parse_children fuel st offset ni).1 = none ∨
        (parse_children fuel st offset ni).1 = some ni)) := by
  intro fuel
  induction fuel with
  | zero =>
    constructor
    · intro st offset
      exact ⟨frame_all_refl st, by intro n h; cases h⟩
    · intro st offset ni
      exact ⟨frame_ex_of_all ni (frame_all_refl st), Or.inl rfl⟩
  | succ fuel ih =>
    obtain ⟨ihn, ihc⟩ := ih
    constructor
    · -- parse_node (fuel+1)
      intro st offset
      show frame_all st (parse_node (fuel+1) st offset).2.2 ∧ _
      rw [parse_node]
      split
      · exact ⟨frame_all_refl st, by intro n h; cases h⟩
      · rcases alloc_node_cases st with ha | ha <;> rw [ha]
        · exact ⟨frame_all_refl st, by intro n h; cases h⟩
        · set st1 := { st with nodes := st.nodes ++ [default] } with hst1
          set ni := st.nodes.length with hni
          set nlen := cstrLen st1.structBytes (4 * (offset + 1)) with hnlen
          set st2 := setNode st1 ni fun n =>
            { n with name := if nlen = 0 then none else some (4 * (offset + 1)) } with hst2
          set off2 := offset + dtb_align_up (nlen + 1) 4 / 4 + 1 with hoff2
          show frame_all st (parse_children fuel st2 off2 ni).2.2 ∧
            (∀ n, (parse_children fuel st2 off2 ni).1 = some n →
              n = ni ∧ n < (parse_children fuel st2 off2 ni).2.2.nodes.length)
          obtain ⟨hframe, hres⟩ := ihc st2 off2 ni
          have hlen1 : st1.nodes.length = st.nodes.length + 1 := by simp [hst1]
          have hlen2 : st2.nodes.length = st1.nodes.length := setNode_nodes_length _ _ _
          have hfex : frame_ex st (parse_children fuel st2 off2 ni).2.2 ni :=
            frame_ex_trans (frame_ex_trans
              (frame_ex_of_all ni (frame_all_append_node st)) (frame_ex_setNode st1 ni _)) hframe
          constructor
          · exact ⟨hfex.1, hfex.2.1, fun i hi => hfex.2.2.1 i hi (by omega), hfex.2.2.2⟩
          · intro n hn
            rcases hres with hr | hr
            · rw [hr] at hn
              cases hn
            · rw [hr] at hn
              cases hn
              refine ⟨rfl, ?_⟩
              have := hframe.2.1
              omega
    · -- parse_children (fuel+1)
      intro st offset ni
      show frame_ex st (parse_children (fuel+1) st offset ni).2.2 ni ∧ _
      rw [parse_children]
      split
      · split
        · -- END_NODE
          exact ⟨frame_ex_of_all ni (frame_all_refl st), Or.inr rfl⟩
        · split
          · -- BEGIN_NODE: child
            rcases heq : parse_node fuel st offset with ⟨rc, o1, s1⟩
            have hnode := ihn st offset
            rw [heq] at hnode
            obtain ⟨hnf, hnr⟩ := hnode
            cases rc with
            | none =>
              obtain ⟨hcf, hcr⟩ := ihc s1 o1 ni
              exact ⟨frame_ex_trans (frame_ex_of_all ni hnf) hcf, hcr⟩
            | some ci =>
              have hnf' : frame_all st s1 := hnf
              obtain ⟨hci, hcilt'⟩ := hnr ci rfl
              have hcilt : ci < s1.nodes.length := hcilt'
              set st_2 := setNode s1 ci fun c =>
                { c with sibling := (getNode s1 ni).child, parent := some ni } with hst_2
              set st_3 := setNode st_2 ni fun n => { n with child := some ci } with hst_3
              show frame_ex st (parse_children fuel st_3 o1 ni).2.2 ni ∧ _
              obtain ⟨hcf, hcr⟩ := ihc st_3 o1 ni
              have hmid : frame_ex st st_3 ni := by
                refine ⟨?_, ?_, ?_, ?_⟩
                · exact hnf'.1
                · have h2 : st_2.nodes.length = s1.nodes.length := setNode_nodes_length _ _ _
                  have h3 : st_3.nodes.length = st_2.nodes.length := setNode_nodes_length _ _ _
                  have := hnf'.2.1
                  omega
                · intro i hi hne
                  rw [hst_3, getNode_setNode_ne _ _ _ _ hne,
                    hst_2, getNode_setNode_ne _ _ _ _ (by omega), hnf'.2.2.1 i hi]
                · intro hw
                  exact props_wf_setNode _ _ _ (props_wf_setNode _ _ _ (hnf'.2.2.2 hw))
              exact ⟨frame_ex_trans hmid hcf, hcr⟩
          · split
            · -- PROP
              rcases heq : parse_prop st offset with ⟨rp, o1, s1⟩
              have hprop := frame_all_parse_prop st offset
              rw [heq] at hprop
              cases rp with
              | none =>
                obtain ⟨hcf, hcr⟩ := ihc s1 o1 ni
                exact ⟨frame_ex_trans (frame_ex_of_all ni hprop) hcf, hcr⟩
              | some pi =>
                set st_2 := setProp s1 pi fun p => { p with next := (getNode s1 ni).props } with hst_2
                set st_3 := setNode st_2 ni fun n => { n with props := some pi } with hst_3
                set st_4 := check_for_special_prop st_3 ni pi with hst_4
                show frame_ex st (parse_children fuel st_4 o1 ni).2.2 ni ∧ _
                obtain ⟨hcf, hcr⟩ := ihc st_4 o1 ni
                have hmid : frame_ex st st_4 ni := by
                  rw [hst_4, check_for_special_prop_eq_self]
                  refine frame_ex_trans (frame_ex_of_all ni ?_) (frame_ex_setNode st_2 ni _)
                  exact frame_all_trans hprop (frame_all_setProp_next s1 pi _)
                exact ⟨frame_ex_trans hmid hcf, hcr⟩
            · -- unknown token
              exact ihc st (offset + 1) ni
      · exact ⟨frame_ex_of_all ni (frame_all_refl st), Or.inl rfl⟩

/-- The top-level parse loop preserves the property-descriptor invariant. -/
theorem props_wf_init_loop : ∀ fuel pf st i, props_wf st →
    props_wf (init_loop pf fuel st i) := by
  intro fuel
  induction fuel with
  | zero => intro pf st i h; exact h
  | succ fuel ih =>
    intro pf st i h
    rw [init_loop]
    split
    · split
      · exact ih pf st (i + 1) h
      · rcases heq : parse_node pf st i with ⟨rn, i', st'⟩
        have hframe := (parse_frame pf).1 st i
        rw [heq] at hframe
        have hwf' : props_wf st' := hframe.1.2.2.2 h
        cases rn with
        | none => exact ih pf st' (i' + 1) hwf'
        | some ni =>
          exact ih pf _ (i' + 1)
            (props_wf_setNode st' ni (fun n => { n with sibling := st'.root }) hwf')
    · exact h

/-- Every property in a parsed state satisfies the descriptor invariant. -/
theorem props_wf_dtb_init (blob : List Nat) : props_wf (dtb_init blob).2 := by
  unfold dtb_init
  split
  · intro p hp
    simp [default, Inhabited.default] at hp
  · apply props_wf_init_loop
    intro p hp
    simp [mkInitState] at hp

/-- C7: the contract of `dtb_read_prop_values` on every parsed property: a
`cell_count` of zero returns 0 immediately; with a NULL out-pointer it returns
`p.length / (cell_count * 4)` without writing; with an out-pointer it writes
exactly that count of values and returns the count.  (The source re-reads the
length from the descriptor at `first_cell - 2`; the parse invariant
`props_wf` equates that with the record's byte length.) -/
theorem c7_read_prop_values_contract (blob : List Nat) (pi k : Nat) (w : Bool)
    (hpi : pi < (dtb_init blob).2.props.length) :
    dtb_read_prop_values (dtb_init blob).2 (some pi) 0 w = (0, none) ∧
    (0 < k → dtb_read_prop_values (dtb_init blob).2 (some pi) k false =
      ((getProp (dtb_init blob).2 pi).length / (k * 4), none)) ∧
    (0 < k → (dtb_read_prop_values (dtb_init blob).2 (some pi) k true).1 =
        (getProp (dtb_init blob).2 pi).length / (k * 4) ∧
      ∃ out, (dtb_read_prop_values (dtb_init blob).2 (some pi) k true).2 = some out ∧
        out.length = (getProp (dtb_init blob).2 pi).length / (k * 4)) := by
  have hwf := props_wf_dtb_init blob
  have hmem : getProp (dtb_init blob).2 pi ∈ (dtb_init blob).2.props := getD_mem _ _ _ hpi
  obtain ⟨hfc, hlen⟩ := hwf _ hmem
  refine ⟨rfl, ?_, ?_⟩
  · intro hk
    simp only [dtb_read_prop_values, if_neg (by omega : ¬ k = 0), hlen]
    simp
  · intro hk
    simp only [dtb_read_prop_values, if_neg (by omega : ¬ k = 0), hlen]
    simp

/-- Witness for `c7_read_prop_values_contract` at the parsed `phB` and its
`phandle` property (index 0, one cell per value). -/
theorem c7_read_prop_values_contract_witness :
    (0 : Nat) < (dtb_init phB).2.props.length ∧
    dtb_read_prop_values (dtb_init phB).2 (some 0) 0 false = (0, none) ∧
    dtb_read_prop_values (dtb_init phB).2 (some 0) 1 false =
      ((getProp (dtb_init phB).2 0).length / (1 * 4), none) ∧
    (dtb_read_prop_values (dtb_init phB).2 (some 0) 1 true).1 =
      (getProp (dtb_init phB).2 0).length / (1 * 4) ∧
    ∃ out, (dtb_read_prop_values (dtb_init phB).2 (some 0) 1 true).2 = some out ∧
      out.length = (getProp (dtb_init phB).2 0).length / (1 * 4) := by
  have h := c7_read_prop_values_contract phB 0 1 false (by decide)
  exact ⟨by decide, h.1, h.2.1 (by decide), (h.2.2 (by decide)).1, (h.2.2 (by decide)).2⟩

theorem find_compat_loop_eq_find? (st : dtb_state) (query : List Nat) :
    ∀ n b, find_compat_loop st query n b =
      (List.range' b n).find? fun i => node_compat_matches st i query := by
  intro n
  induction n with
  | zero => intro b; rfl
  | succ n ih =>
    intro b
    rw [List.range'_succ, List.find?_cons]
    rw [find_compat_loop]
    split <;> rename_i hm
    · simp [hm]
    · simp only [hm, Bool.false_eq_true, if_neg, cond_false]
      exact ih (b + 1)

theorem strings_eq_iff_bytes (ma mb : List Nat) :
    ∀ (len oa ob : Nat), (∀ t, t < len → byteAt mb (ob + t) ≠ 0) →
    (strings_eq ma mb oa ob len = true ↔
      ∀ t, t < len → byteAt ma (oa + t) = byteAt mb (ob + t)) := by
  intro len
  induction len with
  | zero =>
    intro oa ob _
    constructor
    · intro _ t ht
      omega
    · intro _
      rfl
  | succ len ih =>
    intro oa ob hnz
    have hb0 : byteAt mb ob ≠ 0 := by
      have := hnz 0 (by omega)
      simpa using this
    rw [strings_eq]
    by_cases hab : byteAt ma oa = byteAt mb ob
    · have hc1 : (byteAt ma oa == 0 && byteAt mb ob == 0) = false := by
        simp [hab, hb0]
      have hc2 : (!(byteAt ma oa == byteAt mb ob)) = false := by
        simp [hab]
      rw [hc1, if_neg (by simp), hc2, if_neg (by simp)]
      have ih' := ih (oa + 1) (ob + 1) (fun t ht => by
        have := hnz (t + 1) (by omega)
        simpa [Nat.add_assoc, Nat.add_comm 1 t] using this)
      rw [ih']
      constructor
      · intro h t ht
        cases t with
        | zero => simpa using hab
        | succ t =>
          have := h t (by omega)
          simpa [Nat.add_assoc, Nat.add_comm 1 t] using this
      · intro h t ht
        have := h (t + 1) (by omega)
        simpa [Nat.add_assoc, Nat.add_comm 1 t] using this
    · have hc1 : (byteAt ma oa == 0 && byteAt mb ob == 0) = false := by
        simp only [Bool.and_eq_false_iff]
        right
        simpa using hb0
      rw [hc1, if_neg (by simp)]
      have hc2 : (!(byteAt ma oa == byteAt mb ob)) = true := by
        simpa using hab
      rw [hc2, if_pos rfl]
      constructor
      · intro h
        cases h
      · intro h
        exact absurd (by simpa using h 0 (by omega)) hab

theorem cstrLenAux_full (q : List Nat) :
    ∀ f off, (∀ j, off ≤ j → j < q.length → byteAt q j ≠ 0) → off ≤ q.length →
      q.length - off < f → cstrLenAux q f off = q.length - off := by
  intro f
  induction f with
  | zero => intro off _ _ h; omega
  | succ f ih =>
    intro off hnz hle hlt
    rw [cstrLenAux]
    by_cases hoff : off = q.length
    · have hb : byteAt q off = 0 := by
        subst hoff
        simp only [byteAt]
        rw [List.getD_eq_getElem?_getD, List.getElem?_eq_none (le_refl _)]
        rfl
      rw [if_pos hb]
      omega
    · have hb : byteAt q off ≠ 0 := hnz off (le_refl _) (by omega)
      rw [if_neg hb, ih (off + 1) (fun j hj => hnz j (by omega)) (by omega) (by omega)]
      omega

theorem cstrLen_of_nulFree (q : List Nat) (h : nulFree q) : cstrLen q 0 = q.length := by
  have := cstrLenAux_full q (q.length + 1) 0 (fun j _ hj => h j hj) (by omega) (by omega)
  simpa [cstrLen] using this

/-- C5 (amended): `dtb_find_compatible` returns the first node in arena order
from `begin_index` (just after `start`, or 0) whose compatible scan matches —
and `strings_eq`, called as the scan calls it with the query's own length,
tests exactly that the query is a byte-prefix of the candidate string, not
byte-for-byte equality of the whole strings. -/
theorem c5_find_compatible_first_prefix_match :
    (∀ (st : dtb_state) (start : Option Nat) (query : List Nat),
      dtb_find_compatible st start query =
        (List.range' (match start with | none => 0 | some s => s + 1)
          (st.nodes.length - (match start with | none => 0 | some s => s + 1))).find?
          fun i => node_compat_matches st i query) ∧
    (∀ (m query : List Nat) (off : Nat), nulFree query →
      (strings_eq m query off 0 (cstrLen query 0) = true ↔
        ∀ t, t < query.length → byteAt m (off + t) = byteAt query t)) := by
  constructor
  · intro st start query
    exact find_compat_loop_eq_find? st query _ _
  · intro m query off h
    rw [cstrLen_of_nulFree query h]
    have := strings_eq_iff_bytes m query query.length off 0 (fun t ht => by
      have := h t ht
      simpa using this)
    simpa using this

/-- Witness for `c5_find_compatible_first_prefix_match` at the parsed
`compatB` and the query "a". -/
theorem c5_find_compatible_first_prefix_match_witness :
    (dtb_find_compatible (dtb_init compatB).2 none [97] =
      (List.range' 0 ((dtb_init compatB).2.nodes.length - 0)).find?
        fun i => node_compat_matches (dtb_init compatB).2 i [97]) ∧
    (strings_eq (dtb_init compatB).2.structBytes [97] 20 0 (cstrLen [97] 0) = true ↔
      ∀ t, t < [97].length →
        byteAt (dtb_init compatB).2.structBytes (20 + t) = byteAt [97] t) :=
  ⟨c5_find_compatible_first_prefix_match.1 (dtb_init compatB).2 none [97],
   c5_find_compatible_first_prefix_match.2 (dtb_init compatB).2.structBytes [97] 20
     (by
      intro j hj
      simp only [List.length_cons, List.length_nil] at hj
      have hj0 : j = 0 := by omega
      subst hj0
      decide)⟩

theorem parse_prop_nodes_eq (st : dtb_state) (offset : Nat) :
    (parse_prop st offset).2.2.nodes = st.nodes := by
  rcases parse_prop_cases st offset with hc | hc <;> rw [hc]

theorem chainIs_congr {st st' : dtb_state} :
    ∀ (l : List Nat) (o : Option Nat), (∀ c ∈ l, getNode st' c = getNode st c) →
      chainIs st o l → chainIs st' o l := by
  intro l
  induction l with
  | nil =>
    intro o _ hc
    cases o with
    | none => trivial
    | some c => cases hc
  | cons c' r ih =>
    intro o h hc
    cases o with
    | none => cases hc
    | some c =>
      obtain ⟨hcc, hrest⟩ := hc
      subst hcc
      refine ⟨rfl, ?_⟩
      rw [h c' (List.mem_cons_self _ _)]
      exact ih _ (fun x hx => h x (List.mem_cons_of_mem _ hx)) hrest

/-- Chain invariant of the parser: the children successfully parsed by
`parse_children` are prepended one by one to node `ni`'s child chain, so the
final chain is the reverse of blob order (`parse_children_kids`) in front of
whatever chain was there at entry; every linked child records `ni` as its
parent. -/
theorem parse_chain : ∀ fuel : Nat,
    (∀ st offset ni offset' st', parse_node fuel st offset = (some ni, offset', st') →
      chainIs st' ((getNode st' ni).child) (parse_node_kids fuel st offset).reverse ∧
      (∀ c ∈ parse_node_kids fuel st offset,
        c < st'.nodes.length ∧ c ≠ ni ∧ (getNode st' c).parent = some ni)) ∧
    (∀ st offset ni l r offset' st', parse_children fuel st offset ni = (r, offset', st') →
      ni < st.nodes.length →
      chainIs st ((getNode st ni).child) l →
      (∀ c ∈ l, c < st.nodes.length ∧ c ≠ ni ∧ (getNode st c).parent = some ni) →
      chainIs st' ((getNode st' ni).child) ((parse_children_kids fuel st offset ni).reverse ++ l) ∧
      (∀ c ∈ parse_children_kids fuel st offset ni ++ l,
        c < st'.nodes.length ∧ c ≠ ni ∧ (getNode st' c).parent = some ni)) := by
  intro fuel
  induction fuel with
  | zero =>
    constructor
    · intro st offset ni offset' st' heq
      cases heq
    · intro st offset ni l r offset' st' heq hni hchain hprops
      cases heq
      exact ⟨hchain, hprops⟩
  | succ fuel ih =>
    obtain ⟨ihn, ihc⟩ := ih
    constructor
    · -- parse_node (fuel+1)
      intro st offset ni offset' st' heq
      rw [parse_node] at heq
      rw [parse_node_kids]
      split at heq
      · cases heq
      · rename_i htok
        rw [if_neg htok]
        rcases alloc_node_cases st with ha | ha <;> rw [ha] at heq ⊢
        · cases heq
        · set st1 := { st with nodes := st.nodes ++ [default] } with hst1
          set na := st.nodes.length with hna
          set nlen := cstrLen st1.structBytes (4 * (offset + 1)) with hnlen
          set st2 := setNode st1 na fun n =>
            { n with name := if nlen = 0 then none else some (4 * (offset + 1)) } with hst2
          set off2 := offset + dtb_align_up (nlen + 1) 4 / 4 + 1 with hoff2
          have heq' : parse_children fuel st2 off2 na = (some ni, offset', st') := heq
          have hchild0 : (getNode st2 na).child = none := by
            rw [hst2, getNode_setNode_self _ _ _ (by simp [hst1])]
            have : getNode st1 na = default := by
              simp only [getNode, hst1, hna]
              exact getD_append_len _ _ _
            rw [this]
            rfl
          have hres := ihc st2 off2 na [] (some ni) offset' st' heq'
            (by
              rw [hst2, setNode_nodes_length, hst1]
              simp only [List.length_append, List.length_cons, List.length_nil]
              omega)
            (by rw [hchild0]; trivial)
            (by intro c hc; cases hc)
          -- parse_children only returns its own node
          have hrni : ni = na := by
            have := ((parse_frame fuel).2 st2 off2 na).2
            rw [heq'] at this
            rcases this with h | h
            · cases h
            · exact (Option.some.injEq _ _).mp h.symm |>.symm
          subst hrni
          obtain ⟨hchain, hprops⟩ := hres
          rw [List.append_nil] at hchain
          refine ⟨hchain, ?_⟩
          intro c hc
          exact hprops c (by simpa using hc)
    · -- parse_children (fuel+1)
      intro st offset ni l r offset' st' heq hni hchain hprops
      rw [parse_children] at heq
      rw [parse_children_kids]
      split at heq <;> rename_i hoff
      · rw [if_pos hoff]
        split at heq <;> rename_i h2
        · rw [if_pos h2]
          cases heq
          exact ⟨hchain, hprops⟩
        · rw [if_neg h2]
          split at heq <;> rename_i h1
          · rw [if_pos h1]
            rcases hpn : parse_node fuel st offset with ⟨rc, o1, s1⟩
            rw [hpn] at heq
            have hfr := (parse_frame fuel).1 st offset
            rw [hpn] at hfr
            cases rc with
            | none =>
              have hfa : frame_all st s1 := hfr.1
              have hch1 : chainIs s1 ((getNode s1 ni).child) l := by
                rw [hfa.2.2.1 ni hni]
                exact chainIs_congr l _ (fun c hc => hfa.2.2.1 c (hprops c hc).1) hchain
              have hpr1 : ∀ c ∈ l, c < s1.nodes.length ∧ c ≠ ni ∧
                  (getNode s1 c).parent = some ni := by
                intro c hc
                obtain ⟨hc1, hc2, hc3⟩ := hprops c hc
                exact ⟨lt_of_lt_of_le hc1 hfa.2.1, hc2, by rw [hfa.2.2.1 c hc1]; exact hc3⟩
              exact ihc s1 o1 ni l r offset' st' heq
                (lt_of_lt_of_le hni hfa.2.1) hch1 hpr1
            | some ci =>
              have hfa : frame_all st s1 := hfr.1
              obtain ⟨hci, hcilt'⟩ := hfr.2 ci rfl
              have hcilt : ci < s1.nodes.length := hcilt'
              set st_2 := setNode s1 ci fun c =>
                { c with sibling := (getNode s1 ni).child, parent := some ni } with hst_2
              set st_3 := setNode st_2 ni fun n => { n with child := some ci } with hst_3
              have hcine : ci ≠ ni := by omega
              have hlen2 : st_2.nodes.length = s1.nodes.length := setNode_nodes_length _ _ _
              have hlen3 : st_3.nodes.length = st_2.nodes.length := setNode_nodes_length _ _ _
              -- the chain of ni in st_3 is ci :: l
              have hnode3 : (getNode st_3 ni).child = some ci := by
                rw [hst_3, getNode_setNode_self _ _ _ (by omega)]
              have hgetci : getNode st_3 ci = { getNode s1 ci with
                  sibling := (getNode s1 ni).child, parent := some ni } := by
                rw [hst_3, getNode_setNode_ne _ _ _ _ hcine, hst_2,
                  getNode_setNode_self _ _ _ hcilt]
              have htransport : ∀ c ∈ l, getNode st_3 c = getNode st c := by
                intro c hc
                obtain ⟨hc1, hc2, _⟩ := hprops c hc
                rw [hst_3, getNode_setNode_ne _ _ _ _ hc2, hst_2,
                  getNode_setNode_ne _ _ _ _ (by omega), hfa.2.2.1 c hc1]
              have hch3 : chainIs st_3 ((getNode st_3 ni).child) (ci :: l) := by
                rw [hnode3]
                refine ⟨rfl, ?_⟩
                rw [hgetci]
                show chainIs st_3 ((getNode s1 ni).child) l
                rw [hfa.2.2.1 ni hni]
                exact chainIs_congr l _ htransport hchain
              have hpr3 : ∀ c ∈ ci :: l, c < st_3.nodes.length ∧ c ≠ ni ∧
                  (getNode st_3 c).parent = some ni := by
                intro c hc
                rcases List.mem_cons.mp hc with hc | hc
                · subst hc
                  refine ⟨by omega, hcine, ?_⟩
                  rw [hgetci]
                · obtain ⟨hc1, hc2, hc3⟩ := hprops c hc
                  exact ⟨by omega, hc2, by rw [htransport c hc]; exact hc3⟩
              have hres := ihc st_3 o1 ni (ci :: l) r offset' st' heq (by omega) hch3 hpr3
              obtain ⟨hchain', hprops'⟩ := hres
              constructor
              · rw [List.reverse_cons, List.append_assoc]
                simpa using hchain'
              · intro c hc
                apply hprops'
                rcases List.mem_append.mp hc with hc | hc
                · rcases List.mem_cons.mp hc with hc | hc
                  · subst hc
                    exact List.mem_append.mpr (Or.inr (List.mem_cons_self _ _))
                  · exact List.mem_append.mpr (Or.inl hc)
                · exact List.mem_append.mpr (Or.inr (List.mem_cons_of_mem _ hc))
          · split at heq <;> rename_i h3
            · rw [if_neg h1, if_pos h3]
              rcases hpp : parse_prop st offset with ⟨rp, o1, s1⟩
              rw [hpp] at heq
              have hnodes1 : s1.nodes = st.nodes := by
                have := parse_prop_nodes_eq st offset
                rw [hpp] at this
                exact this
              cases rp with
              | none =>
                have hget1 : ∀ c, getNode s1 c = getNode st c := by
                  intro c
                  simp only [getNode, hnodes1]
                have hch1 : chainIs s1 ((getNode s1 ni).child) l := by
                  rw [hget1 ni]
                  exact chainIs_congr l _ (fun c _ => hget1 c) hchain
                exact ihc s1 o1 ni l r offset' st' heq
                  (by simp only [hnodes1]; exact hni)
                  hch1
                  (fun c hc => by
                    obtain ⟨h1', h2', h3'⟩ := hprops c hc
                    exact ⟨by simp only [hnodes1]; exact h1', h2',
                      by rw [hget1 c]; exact h3'⟩)
              | some pi =>
                set st_2 := setProp s1 pi fun p => { p with next := (getNode s1 ni).props } with hst_2
                set st_3 := setNode st_2 ni fun n => { n with props := some pi } with hst_3
                set st_4 := check_for_special_prop st_3 ni pi with hst_4
                have hnodes2 : st_2.nodes = st.nodes := by
                  rw [hst_2]
                  exact hnodes1
                have hst43 : st_4 = st_3 := by
                  rw [hst_4, check_for_special_prop_eq_self]
                have hget4 : ∀ c, c ≠ ni → getNode st_4 c = getNode st c := by
                  intro c hcni
                  rw [hst43, hst_3, getNode_setNode_ne _ _ _ _ hcni]
                  simp only [getNode, hnodes2]
                have hlen4 : st_4.nodes.length = st.nodes.length := by
                  rw [hst43, hst_3, setNode_nodes_length, hnodes2]
                have hchild4 : (getNode st_4 ni).child = (getNode st ni).child := by
                  rw [hst43, hst_3,
                    getNode_setNode_self _ _ _ (by simp only [hnodes2]; exact hni)]
                  show (getNode st_2 ni).child = (getNode st ni).child
                  simp only [getNode, hnodes2]
                have hch4 : chainIs st_4 ((getNode st_4 ni).child) l := by
                  rw [hchild4]
                  exact chainIs_congr l _ (fun c hc => hget4 c (hprops c hc).2.1) hchain
                have hpr4 : ∀ c ∈ l, c < st_4.nodes.length ∧ c ≠ ni ∧
                    (getNode st_4 c).parent = some ni := by
                  intro c hc
                  obtain ⟨h1', h2', h3'⟩ := hprops c hc
                  exact ⟨by omega, h2', by rw [hget4 c h2']; exact h3'⟩
                exact ihc st_4 o1 ni l r offset' st' heq (by omega) hch4 hpr4
            · rw [if_neg h1, if_neg h3]
              exact ihc st (offset + 1) ni l r offset' st' heq hni hchain hprops
      · rw [if_neg hoff]
        cases heq
        exact ⟨hchain, hprops⟩

/-- C9: for every parsed node, the in-memory child (sibling) list is the exact
reverse of the order in which the successfully parsed children appear in the
blob's structure block (`parse_node_kids`), because each child is prepended
(`child.sibling = parent.child; parent.child = child`), and each child's
`parent` is set to the node. -/
theorem c9_sibling_list_reverse_of_blob_order (fuel : Nat) (st : dtb_state)
    (offset ni offset' : Nat) (st' : dtb_state)
    (heq : parse_node fuel st offset = (some ni, offset', st')) :
    chainIs st' ((getNode st' ni).child) (parse_node_kids fuel st offset).reverse ∧
    ∀ c ∈ parse_node_kids fuel st offset, (getNode st' c).parent = some ni := by
  obtain ⟨hchain, hprops⟩ := (parse_chain fuel).1 st offset ni offset' st' heq
  exact ⟨hchain, fun c hc => (hprops c hc).2.2⟩

/-- Witness for `c9_sibling_list_reverse_of_blob_order`: parsing `kidsB`'s
root, whose children in blob order are nodes 1 ("a") and 2 ("b"). -/
theorem c9_sibling_list_reverse_of_blob_order_witness :
    chainIs (parse_node 100 (mkInitState kidsB) 0).2.2
      ((getNode (parse_node 100 (mkInitState kidsB) 0).2.2 0).child)
      (parse_node_kids 100 (mkInitState kidsB) 0).reverse ∧
    ∀ c ∈ parse_node_kids 100 (mkInitState kidsB) 0,
      (getNode (parse_node 100 (mkInitState kidsB) 0).2.2 c).parent = some 0 := by
  apply c9_sibling_list_reverse_of_blob_order 100 (mkInitState kidsB) 0 0
    (parse_node 100 (mkInitState kidsB) 0).2.1 (parse_node 100 (mkInitState kidsB) 0).2.2
  have h1 : (parse_node 100 (mkInitState kidsB) 0).1 = some 0 := by decide
  rw [← h1]
